import Mathlib

/-!
Shallow embedding of the search subsystem of smart_knowledge_repo
(src/search/vector_search.py and src/search/indexing.py), together with
theorems settling the specification claims about it.

Python dictionaries are modelled as association lists that preserve
insertion order: assigning to an existing key replaces the value in
place, assigning to a fresh key appends at the end, exactly as CPython
dicts behave.  Scores (Python floats) are modelled as rationals; every
arithmetic operation performed by the code (sums, products by the
constant weights, comparisons) is exact on the inputs we consider.
External library calls (sklearn cosine_similarity and TfidfVectorizer,
hashlib md5) are not code of this repository; they enter the embedding
as function parameters, with their guaranteed shape properties (for
instance that an md5 hex digest has 32 characters) taken as hypotheses.
-/

namespace SKR

/-- A Python dict as an insertion-ordered association list. -/
abbrev Dict (K V : Type) := List (K × V)

namespace Dict

variable {K V : Type} [DecidableEq K]

/-- Keys in iteration (insertion) order. -/
def keys (d : Dict K V) : List K := d.map Prod.fst

/-- Python `d[k] = v`: replace in place if the key exists, else append. -/
def insert (d : Dict K V) (k : K) (v : V) : Dict K V :=
  if k ∈ keys d then d.map (fun e => if e.1 = k then (k, v) else e)
  else d ++ [(k, v)]

/-- Python `del d[k]` (guarded by a membership test in the code). -/
def erase (d : Dict K V) (k : K) : Dict K V :=
  d.filter (fun e => decide (e.1 ≠ k))

/-- Python `d.get(k)` as an option. -/
def get? (d : Dict K V) (k : K) : Option V :=
  (d.find? (fun e => decide (e.1 = k))).map Prod.snd

theorem keys_insert (d : Dict K V) (k : K) (v : V) :
    keys (insert d k v) = if k ∈ keys d then keys d else keys d ++ [k] := by
  unfold insert keys
  split
  · simp only [List.map_map]
    apply List.map_congr_left
    intro e _
    by_cases h : e.1 = k <;> simp [h]
  · simp

theorem keys_erase (d : Dict K V) (k : K) :
    keys (erase d k) = (keys d).filter (fun x => decide (x ≠ k)) := by
  unfold erase keys
  rw [List.filter_map]
  rfl

end Dict

/-- Embedded metadata/document record.  The Python code passes the whole
content dict around; the fields actually read by the search code are
id, title, content and content_type. -/
structure Doc where
  id : ℤ
  title : String
  content : String
  content_type : String
deriving DecidableEq, Repr

/-- Default for `metadata.get(key, fallback)` on a missing document. -/
def emptyDoc : Doc := { id := 0, title := "", content := "", content_type := "" }

/-- src/search/vector_search.py lines 18-26, dataclass SearchResult. -/
structure SearchResult where
  content_id : ℤ
  title : String
  content : String
  score : ℚ
  content_type : String
  metadata : Doc
deriving DecidableEq, Repr

/-- Python `list.sort(key=score, reverse=True)` is a stable descending
sort; a stable sort is unique, so structural insertion sort with the
same stability gives the identical list.  insertDesc walks past every
element with a score at least as large, so earlier elements with equal
scores stay in front. -/
def insertDesc (x : SearchResult) : List SearchResult → List SearchResult
  | [] => [x]
  | y :: ys => if x.score ≤ y.score then y :: insertDesc x ys else x :: y :: ys

/-- Stable sort descending by score, processing the list left to right. -/
def sortDesc (l : List SearchResult) : List SearchResult :=
  l.foldl (fun acc x => insertDesc x acc) []

/-- src/search/vector_search.py lines 28-110, class VectorSearch. -/
structure VectorSearch where
  embedding_dimension : ℕ
  embeddings : Dict ℤ (List ℚ)
  content_metadata : Dict ℤ Doc
deriving DecidableEq, Repr

namespace VectorSearch

/-- Constructor default state (lines 31-35). -/
def init (dim : ℕ := 384) : VectorSearch :=
  { embedding_dimension := dim, embeddings := [], content_metadata := [] }

/-- Structured rendering of the raised ValueError. -/
inductive VSError where
  | dimensionMismatch (expected got : ℕ)
deriving DecidableEq, Repr

/-- Lines 37-43: add_embedding raises on dimension mismatch before any
mutation, else stores vector and metadata under the id. -/
def add_embedding (vs : VectorSearch) (content_id : ℤ) (embedding : List ℚ)
    (metadata : Doc) : Except VSError VectorSearch :=
  if embedding.length ≠ vs.embedding_dimension then
    .error (.dimensionMismatch vs.embedding_dimension embedding.length)
  else
    .ok { vs with
          embeddings := vs.embeddings.insert content_id embedding,
          content_metadata := vs.content_metadata.insert content_id metadata }

/-- Lines 57-67: the SearchResult built for one stored embedding. -/
def mkResult (vs : VectorSearch) (content_id : ℤ) (score : ℚ) : SearchResult :=
  let metadata := (vs.content_metadata.get? content_id).getD emptyDoc
  { content_id := content_id
    title := metadata.title
    content := metadata.content
    score := score
    content_type := metadata.content_type
    metadata := metadata }

/-- Lines 45-71: search.  The call to sklearn cosine_similarity is the
parameter sim; the loop visits the embeddings dict in insertion order,
keeps scores at least min_score, then stable-sorts descending by score
and truncates.  The early return on an empty dict coincides with the
general path. -/
def search (sim : List ℚ → List ℚ → ℚ) (vs : VectorSearch)
    (query_embedding : List ℚ) (top_k : ℕ := 10) (min_score : ℚ := 1/10) :
    List SearchResult :=
  if vs.embeddings.isEmpty then []
  else
    let results := vs.embeddings.filterMap (fun e =>
      let similarity := sim query_embedding e.2
      if min_score ≤ similarity then some (mkResult vs e.1 similarity) else none)
    (sortDesc results).take top_k

/-- Lines 73-78: remove_embedding deletes the id from both maps. -/
def remove_embedding (vs : VectorSearch) (content_id : ℤ) : VectorSearch :=
  { vs with
    embeddings := vs.embeddings.erase content_id,
    content_metadata := vs.content_metadata.erase content_id }

/-- The on-disk JSON produced by save_index (lines 80-90). -/
structure IndexFile where
  embeddings : Dict ℤ (List ℚ)
  metadata : Dict ℤ Doc
  dimension : ℕ
deriving DecidableEq, Repr

/-- Lines 92-110: load_index replaces dimension, embeddings and metadata
with the stored ones.  The only failure paths are the file read and the
json decode; a well-formed file always loads, with no dimension check. -/
def load_index (vs : VectorSearch) (file : IndexFile) :
    Except String VectorSearch :=
  .ok { vs with
        embedding_dimension := file.dimension,
        embeddings := file.embeddings,
        content_metadata := file.metadata }

end VectorSearch

/-- src/search/vector_search.py lines 112-197, class KeywordSearch.
The sklearn TfidfVectorizer state after fit_transform is determined by
the corpus it was fitted on, so the tfidf_matrix field stores that
corpus (one entry per matrix row); the similarity computation
cosine_similarity(transform(query), matrix).flatten() is the parameter
tfidfSim of search. -/
structure KeywordSearch where
  tfidf_matrix : Option (List String)
  content_metadata : Dict ℤ Doc
deriving DecidableEq, Repr

namespace KeywordSearch

/-- Constructor default state (lines 115-123): no fitted matrix yet. -/
def init : KeywordSearch := { tfidf_matrix := none, content_metadata := [] }

/-- Lines 125-138: build_index resets content_metadata, collects one
text per document, and refits the matrix only when the text list is
nonempty; on an empty corpus the previous matrix is left in place and
no error is raised. -/
def build_index (ks : KeywordSearch) (documents : List Doc) : KeywordSearch :=
  let texts := documents.map (fun doc => doc.title ++ " " ++ doc.content)
  let metadata := documents.foldl (fun m doc => Dict.insert m doc.id doc) ([] : Dict ℤ Doc)
  { tfidf_matrix := if texts.isEmpty then ks.tfidf_matrix else some texts,
    content_metadata := metadata }

/-- Lines 140-169: search enumerates the similarity row, keeps scores
at least min_score whose index lands inside the current key list, then
stable-sorts descending and truncates. -/
def search (tfidfSim : List String → String → List ℚ) (ks : KeywordSearch)
    (query : String) (top_k : ℕ := 10) (min_score : ℚ := 1/10) :
    List SearchResult :=
  match ks.tfidf_matrix with
  | none => []
  | some corpus =>
    let similarities := tfidfSim corpus query
    let content_ids := ks.content_metadata.keys
    let results := similarities.enum.filterMap (fun p =>
      if min_score ≤ p.2 then
        match content_ids[p.1]? with
        | some content_id =>
          match ks.content_metadata.get? content_id with
          | some metadata =>
            some { content_id := content_id
                   title := metadata.title
                   content := metadata.content
                   score := p.2
                   content_type := metadata.content_type
                   metadata := metadata }
          | none => none
        | none => none
      else none)
    (sortDesc results).take top_k

end KeywordSearch

/-- src/search/vector_search.py lines 199-332, class SemanticSearchEngine. -/
structure SemanticSearchEngine where
  vector_search : VectorSearch
  keyword_search : KeywordSearch
deriving DecidableEq, Repr

namespace SemanticSearchEngine

/-- The per-id record held in the combined_scores dict of
_merge_results: the SearchResult object plus the two side scores. -/
structure Combined where
  result : SearchResult
  vector_score : ℚ
  keyword_score : ℚ
deriving DecidableEq, Repr

/-- Lines 270-275: seed combined_scores from the vector results. -/
def mergePhase1 (vector_results : List SearchResult) : Dict ℤ Combined :=
  vector_results.foldl
    (fun d r => d.insert r.content_id
      { result := r, vector_score := r.score, keyword_score := 0 })
    []

/-- Lines 278-286, the value stored for one keyword result: an id
already present keeps its record with the keyword score updated in
place, a fresh id enters with vector score 0. -/
def mergeStep2 (d : Dict ℤ Combined) (r : SearchResult) : Combined :=
  match d.get? r.content_id with
  | some c => { c with keyword_score := r.score }
  | none => { result := r, vector_score := 0, keyword_score := r.score }

/-- Lines 278-286: fold the keyword results into combined_scores. -/
def mergePhase2 (d : Dict ℤ Combined) (keyword_results : List SearchResult) :
    Dict ℤ Combined :=
  keyword_results.foldl (fun d r => Dict.insert d r.content_id (mergeStep2 d r)) d

/-- Lines 288-290: the hard-coded hybrid weights. -/
def vector_weight : ℚ := 3/5
def keyword_weight : ℚ := 2/5

/-- Lines 261-305: _merge_results combines the two candidate lists by
content_id, rescores each surviving result with the weighted sum, then
stable-sorts descending by the combined score and truncates. -/
def merge_results (vector_results keyword_results : List SearchResult)
    (top_k : ℕ) : List SearchResult :=
  let combined_scores := mergePhase2 (mergePhase1 vector_results) keyword_results
  let final_results := combined_scores.map (fun e =>
    { e.2.result with
      score := e.2.vector_score * vector_weight + e.2.keyword_score * keyword_weight })
  (sortDesc final_results).take top_k

/-- Lines 222-259: the dispatching search.  A query embedding of none
models Python query_embedding=None (and an empty list models a falsy
empty vector, which the truthiness tests also treat as absent). -/
def search (sim : List ℚ → List ℚ → ℚ)
    (tfidfSim : List String → String → List ℚ)
    (engine : SemanticSearchEngine) (query : String)
    (query_embedding : Option (List ℚ) := none)
    (search_type : String := "hybrid") (top_k : ℕ := 10)
    (min_score : ℚ := 1/10) : List SearchResult :=
  let qe := match query_embedding with
    | some v => if v.isEmpty then none else some v
    | none => none
  if search_type = "vector" ∧ qe.isSome then
    engine.vector_search.search sim (qe.getD []) top_k min_score
  else if search_type = "keyword" then
    engine.keyword_search.search tfidfSim query top_k min_score
  else if search_type = "hybrid" then
    let vector_results := match qe with
      | some v => engine.vector_search.search sim v (top_k * 2) min_score
      | none => []
    let keyword_results := engine.keyword_search.search tfidfSim query (top_k * 2) min_score
    merge_results vector_results keyword_results top_k
  else
    engine.keyword_search.search tfidfSim query top_k min_score

end SemanticSearchEngine

/-! Embedding of src/search/indexing.py. -/

/-- Python regex \w on the ASCII inputs at hand: alphanumeric or underscore. -/
def isWordChar (c : Char) : Bool := c.isAlphanum || c = '_'

/-- re.sub of one or more whitespace characters by a single space
(lines 56-57), tracked with a previous-was-whitespace flag. -/
def collapseWsAux : List Char → Bool → List Char
  | [], _ => []
  | c :: rest, prev =>
    if c.isWhitespace then
      if prev then collapseWsAux rest true else ' ' :: collapseWsAux rest true
    else c :: collapseWsAux rest false

/-- Line 60: keep word characters, whitespace and basic punctuation. -/
def keepBasicChar (c : Char) : Bool :=
  isWordChar c || c.isWhitespace || c = '.' || c = ',' || c = '!' || c = '?'

/-- Python str.strip: drop whitespace at both ends. -/
def stripWs (cs : List Char) : List Char :=
  ((cs.dropWhile Char.isWhitespace).reverse.dropWhile Char.isWhitespace).reverse

/-- Lines 51-65, EmbeddingGenerator preprocess of text: collapse
whitespace, drop special characters, lowercase, strip.  A falsy (empty)
input short-circuits to the empty string. -/
def preprocess_text (text : String) : String :=
  if text = "" then ""
  else
    let cs := collapseWsAux text.toList false
    let cs := cs.filter keepBasicChar
    let cs := cs.map Char.toLower
    String.mk (stripWs cs)

/-- Value of one hexadecimal digit.  Python int(s, 16) raises on other
characters; an md5 hexdigest only contains 0-9 and lowercase a-f, so
the fallback 0 is unreachable on the inputs the code produces. -/
def hexDigitVal (c : Char) : ℕ :=
  if '0' ≤ c ∧ c ≤ '9' then c.toNat - '0'.toNat
  else if 'a' ≤ c ∧ c ≤ 'f' then c.toNat - 'a'.toNat + 10
  else if 'A' ≤ c ∧ c ≤ 'F' then c.toNat - 'A'.toNat + 10
  else 0

/-- Lines 77-82: consume the digest two characters at a time, mapping
each byte value to (v / 255) * 2 - 1.  An odd trailing character is a
one-digit int, exactly as the Python slice produces. -/
def hexPairs : List Char → List ℚ
  | a :: b :: rest =>
    (((16 * hexDigitVal a + hexDigitVal b : ℚ) / 255) * 2 - 1) :: hexPairs rest
  | [a] => [((hexDigitVal a : ℚ) / 255) * 2 - 1]
  | [] => []

/-- Lines 84-86: the while loop extending the embedding with a prefix
of itself until it reaches the desired dimension.  The loop body grows
the list by at least one element whenever it is nonempty, which bounds
the iteration count; on an empty list with positive dimension the
Python loop would never terminate, so the model stops there (that state
is unreachable because an md5 hexdigest always has 32 characters). -/
def padEmbedding (dim : ℕ) (e : List ℚ) : List ℚ :=
  if _h : e.length < dim ∧ 0 < e.length then
    padEmbedding dim (e ++ e.take (min e.length (dim - e.length)))
  else e
termination_by dim - e.length
decreasing_by
  simp only [List.length_append, List.length_take]
  omega

/-- The hard-coded embedding dimension of EmbeddingGenerator (line 24). -/
def embeddingDimension : ℕ := 384

/-- Lines 67-88: _create_hash_embedding on an already computed hex
digest: hex pairs to floats, pad, truncate to the dimension. -/
def create_hash_embedding (digest : String) : List ℚ :=
  (padEmbedding embeddingDimension (hexPairs digest.toList)).take embeddingDimension

/-- Lines 29-41: generate_embedding preprocesses the text and feeds the
md5 hex digest of it to _create_hash_embedding.  hashlib.md5 is the
parameter md5hex. -/
def generate_embedding (md5hex : String → String) (text : String) : List ℚ :=
  create_hash_embedding (md5hex (preprocess_text text))

/-- re.findall of word runs (line 235): the maximal runs of word
characters, accumulated in reverse in acc. -/
def splitWordsAux : List Char → List Char → List String
  | [], acc => if acc.isEmpty then [] else [String.mk acc.reverse]
  | c :: rest, acc =>
    if isWordChar c then splitWordsAux rest (c :: acc)
    else if acc.isEmpty then splitWordsAux rest []
    else String.mk acc.reverse :: splitWordsAux rest []

/-- The word tokens of a string in order. -/
def wordTokens (s : String) : List String := splitWordsAux s.toList []

/-- Python str.lower on the ASCII inputs at hand, written over the
character list. -/
def lowerStr (s : String) : String := String.mk (s.toList.map Char.toLower)

/-- Lines 238-246: the stop-word set. -/
def stop_words : List String :=
  ["the", "a", "an", "and", "or", "but", "in", "on", "at", "to", "for",
   "of", "with", "by", "from", "up", "about", "into", "through", "during",
   "before", "after", "above", "below", "between", "among", "within",
   "is", "are", "was", "were", "be", "been", "being", "have", "has", "had",
   "do", "does", "did", "will", "would", "could", "should", "may", "might",
   "must", "can", "this", "that", "these", "those", "i", "you", "he", "she",
   "it", "we", "they", "me", "him", "her", "us", "them"]

/-- Lines 252-257: the seen-set deduplication loop, first occurrence
kept. -/
def dedupeSeen : List String → List String → List String
  | [], _ => []
  | w :: rest, seen =>
    if w ∈ seen then dedupeSeen rest seen
    else w :: dedupeSeen rest (w :: seen)

/-- Lines 226-259, ContentIndexer extract of keywords: lowercase word
tokens, keep those longer than 2 characters outside the stop words,
deduplicate keeping first occurrences, cap at 20. -/
def extract_keywords (text : String) : List String :=
  if text = "" then []
  else
    let words := wordTokens (lowerStr text)
    let keywords := words.filter (fun w => decide (2 < w.length) && decide (w ∉ stop_words))
    (dedupeSeen keywords []).take 20

/-- The metadata field of an index entry: the profile path builds a
fixed three-key dict (lines 127-131), the knowledge path passes the
metadata of the input through (line 159). -/
abbrev EntryMeta := List (String × Option String)

/-- The index entry built by ContentIndexer (lines 120-133, 152-161). -/
structure Entry where
  content_id : ℤ
  content_type : String
  title : String
  content : String
  embedding : List ℚ
  keywords : List String
  metadata : EntryMeta
  indexed_at : String
deriving DecidableEq, Repr

/-- Input record for index_knowledge_entry; absent dict keys are none. -/
structure KnowledgeData where
  id : ℤ
  title : Option String
  content : Option String
  content_type : Option String
  metadata : EntryMeta
deriving DecidableEq, Repr

/-- Input record for index_profile; absent dict keys are none. -/
structure ProfileData where
  id : ℤ
  name : Option String
  role : Option String
  department : Option String
  bio : Option String
  contact : List (String × String)
  source_url : Option String
deriving DecidableEq, Repr

/-- Python truthiness of an optional string: present and nonempty. -/
def optTruthy : Option String → Bool
  | none => false
  | some s => !(s = "")

/-- Lines 197-224: _combine_profile_text joins the truthy fields and
the truthy contact values with single spaces. -/
def combine_profile_text (p : ProfileData) : String :=
  let fields := [p.name, p.role, p.department, p.bio]
  let parts := (fields.filter optTruthy).map (fun o => o.getD "")
  let contactParts := (p.contact.filter (fun kv => !(kv.2 = ""))).map
    (fun kv => kv.1 ++ ": " ++ kv.2)
  String.intercalate " " (parts ++ contactParts)

/-- src/search/indexing.py lines 98-308, class ContentIndexer state. -/
structure ContentIndexer where
  indexed_content : Dict ℤ Entry
deriving DecidableEq, Repr

namespace ContentIndexer

/-- Lines 106-136: index_profile always succeeds, returning the entry
and storing it under the profile id; now stands for the timestamp. -/
def index_profile (md5hex : String → String) (now : String)
    (st : ContentIndexer) (p : ProfileData) : Entry × ContentIndexer :=
  let text_content := combine_profile_text p
  let entry : Entry :=
    { content_id := p.id
      content_type := "profile"
      title := p.name.getD ""
      content := text_content
      embedding := generate_embedding md5hex text_content
      keywords := extract_keywords text_content
      metadata := [("role", p.role), ("department", p.department),
                   ("source_url", p.source_url)]
      indexed_at := now }
  (entry, { indexed_content := st.indexed_content.insert p.id entry })

/-- Lines 138-164: index_knowledge_entry always succeeds, returning the
entry and storing it under the id. -/
def index_knowledge_entry (md5hex : String → String) (now : String)
    (st : ContentIndexer) (k : KnowledgeData) : Entry × ContentIndexer :=
  let text_content := k.title.getD "" ++ " " ++ k.content.getD ""
  let entry : Entry :=
    { content_id := k.id
      content_type := k.content_type.getD "knowledge"
      title := k.title.getD ""
      content := k.content.getD ""
      embedding := generate_embedding md5hex text_content
      keywords := extract_keywords text_content
      metadata := k.metadata
      indexed_at := now }
  (entry, { indexed_content := st.indexed_content.insert k.id entry })

/-- A source record, dispatched the way add_content and batch_index do
(profile when the dict carries type profile or a name key, knowledge
otherwise). -/
inductive Record where
  | knowledge (k : KnowledgeData)
  | profile (p : ProfileData)
deriving DecidableEq, Repr

/-- The id under which a record is stored. -/
def Record.rid : Record → ℤ
  | .knowledge k => k.id
  | .profile p => p.id

/-- One indexing step on a record, profile or knowledge. -/
def indexRecord (md5hex : String → String) (now : String)
    (st : ContentIndexer) : Record → Entry × ContentIndexer
  | .knowledge k => index_knowledge_entry md5hex now st k
  | .profile p => index_profile md5hex now st p

/-- Lines 180-188: update_index re-indexes only when the id is already
present, else returns None and leaves the state alone. -/
def update_index (md5hex : String → String) (now : String)
    (st : ContentIndexer) (content_id : ℤ) (updated : Record) :
    Option Entry × ContentIndexer :=
  if content_id ∈ st.indexed_content.keys then
    let (e, st') := indexRecord md5hex now st updated
    (some e, st')
  else (none, st)

/-- Lines 190-195: remove_from_index deletes a present id and reports
whether it did. -/
def remove_from_index (st : ContentIndexer) (content_id : ℤ) :
    Bool × ContentIndexer :=
  if content_id ∈ st.indexed_content.keys then
    (true, { indexed_content := st.indexed_content.erase content_id })
  else (false, st)

end ContentIndexer

/-- src/search/indexing.py lines 310-371, class SearchIndexManager.
The rebuilds field counts the calls to rebuild_indexes, which the code
itself only logs (lines 357-362); it instruments the model so that
"exactly one rebuild" is a statement about the state. -/
structure SearchIndexManager where
  content_indexer : ContentIndexer
  rebuild_threshold : ℕ
  changes_since_rebuild : ℕ
  rebuilds : ℕ
deriving DecidableEq, Repr

namespace SearchIndexManager

/-- Constructor state (lines 313-317): threshold 100, counter 0. -/
def init (ix : ContentIndexer := { indexed_content := [] }) : SearchIndexManager :=
  { content_indexer := ix, rebuild_threshold := 100,
    changes_since_rebuild := 0, rebuilds := 0 }

/-- Lines 357-362: rebuild_indexes resets the counter. -/
def rebuild_indexes (m : SearchIndexManager) : SearchIndexManager :=
  { m with changes_since_rebuild := 0, rebuilds := m.rebuilds + 1 }

/-- Lines 351-355: rebuild exactly when the counter has reached the
threshold. -/
def check_rebuild_needed (m : SearchIndexManager) : SearchIndexManager :=
  if m.rebuild_threshold ≤ m.changes_since_rebuild then m.rebuild_indexes else m

/-- Lines 319-329: add_content indexes the record (always succeeds),
bumps the counter and checks the threshold. -/
def add_content (md5hex : String → String) (now : String)
    (m : SearchIndexManager) (data : ContentIndexer.Record) :
    Entry × SearchIndexManager :=
  let (e, ix') := ContentIndexer.indexRecord md5hex now m.content_indexer data
  let m' := { m with content_indexer := ix',
                     changes_since_rebuild := m.changes_since_rebuild + 1 }
  (e, m'.check_rebuild_needed)

/-- Lines 331-339: update_content bumps the counter only on a
successful update. -/
def update_content (md5hex : String → String) (now : String)
    (m : SearchIndexManager) (content_id : ℤ) (updated : ContentIndexer.Record) :
    Option Entry × SearchIndexManager :=
  let (r, ix') := ContentIndexer.update_index md5hex now m.content_indexer content_id updated
  match r with
  | some e =>
    let m' := { m with content_indexer := ix',
                       changes_since_rebuild := m.changes_since_rebuild + 1 }
    (some e, m'.check_rebuild_needed)
  | none => (none, { m with content_indexer := ix' })

/-- Lines 341-349: remove_content bumps the counter only on a
successful removal. -/
def remove_content (m : SearchIndexManager) (content_id : ℤ) :
    Bool × SearchIndexManager :=
  let (r, ix') := ContentIndexer.remove_from_index m.content_indexer content_id
  if r then
    let m' := { m with content_indexer := ix',
                       changes_since_rebuild := m.changes_since_rebuild + 1 }
    (true, m'.check_rebuild_needed)
  else (false, { m with content_indexer := ix' })

/-- A mutation request through any manager entry point. -/
inductive Op where
  | add (data : ContentIndexer.Record)
  | update (content_id : ℤ) (updated : ContentIndexer.Record)
  | remove (content_id : ℤ)
deriving DecidableEq, Repr

/-- Apply one mutation request. -/
def applyOp (md5hex : String → String) (now : String)
    (m : SearchIndexManager) : Op → SearchIndexManager
  | .add d => (m.add_content md5hex now d).2
  | .update cid d => (m.update_content md5hex now cid d).2
  | .remove cid => (m.remove_content cid).2

/-- Whether a mutation request succeeds on the current state: adds
always do, updates and removals only on a present id. -/
def opSucceeds (m : SearchIndexManager) : Op → Prop
  | .add _ => True
  | .update cid _ => cid ∈ m.content_indexer.indexed_content.keys
  | .remove cid => cid ∈ m.content_indexer.indexed_content.keys

instance (m : SearchIndexManager) (op : Op) : Decidable (opSucceeds m op) := by
  cases op <;> simp only [opSucceeds] <;> infer_instance

/-- Run a sequence of mutation requests. -/
def run (md5hex : String → String) (now : String)
    (m : SearchIndexManager) : List Op → SearchIndexManager
  | [] => m
  | op :: rest => run md5hex now (applyOp md5hex now m op) rest

/-- Every request in the sequence succeeds on the state at which it is
applied. -/
def allSucceed (md5hex : String → String) (now : String) :
    SearchIndexManager → List Op → Prop
  | _, [] => True
  | m, op :: rest =>
    opSucceeds m op ∧ allSucceed md5hex now (applyOp md5hex now m op) rest

instance (md5hex : String → String) (now : String) (m : SearchIndexManager) :
    (ops : List Op) → Decidable (allSucceed md5hex now m ops)
  | [] => by simp only [allSucceed]; infer_instance
  | op :: rest =>
    have : Decidable (allSucceed md5hex now (applyOp md5hex now m op) rest) :=
      instDecidableAllSucceed md5hex now (applyOp md5hex now m op) rest
    by simp only [allSucceed]; infer_instance

end SearchIndexManager

/-! Further definitions used by the theorems: operation sequences over a
VectorSearch, score helpers, a spec-side rendering of keyword
extraction, and concrete fixtures for counterexamples and witnesses. -/

namespace VectorSearch

/-- A mutation on the vector index through its two entry points. -/
inductive VSOp where
  | add (content_id : ℤ) (embedding : List ℚ) (metadata : Doc)
  | remove (content_id : ℤ)
deriving DecidableEq, Repr

/-- Apply one mutation; a failed add raises in Python, leaving the
state as it was, so the caller continues from the unchanged index. -/
def applyVSOp (vs : VectorSearch) : VSOp → VectorSearch
  | .add cid emb md =>
    match vs.add_embedding cid emb md with
    | .ok vs' => vs'
    | .error _ => vs
  | .remove cid => vs.remove_embedding cid

/-- Run a sequence of mutations from a given state. -/
def runVS (vs : VectorSearch) : List VSOp → VectorSearch
  | [] => vs
  | op :: rest => runVS (applyVSOp vs op) rest

end VectorSearch

/-- Position of the first occurrence of an id in a key list. -/
def firstPos : List ℤ → ℤ → ℕ
  | [], _ => 0
  | x :: rest, cid => if x = cid then 0 else firstPos rest cid + 1

/-- Stable-descending order with ties resolved by a position measure:
what a stable descending sort guarantees pairwise about its output when
the input positions were strictly increasing. -/
def sKey (p : SearchResult → ℕ) (a b : SearchResult) : Prop :=
  b.score < a.score ∨ (a.score = b.score ∧ p a < p b)

/-- The order the claim about VectorSearch.search asserts: descending
score with ascending content_id breaking ties. -/
def claimOrderC1 (a b : SearchResult) : Prop :=
  b.score < a.score ∨ (a.score = b.score ∧ a.content_id < b.content_id)

instance : DecidableRel claimOrderC1 := fun _ _ => by
  unfold claimOrderC1; infer_instance

/-- The score a candidate list contributes for an id: the score of its
(first) result carrying the id, or 0 when absent. -/
def sideScore (results : List SearchResult) (cid : ℤ) : ℚ :=
  ((results.find? (fun r => decide (r.content_id = cid))).map SearchResult.score).getD 0

/-- Modelled from the spec wording for keyword extraction: deduplicate
keeping the first occurrence of each element. -/
def specDedupFirst (l : List String) : List String :=
  l.foldl (fun acc w => if w ∈ acc then acc else acc ++ [w]) []

/-- Modelled from the spec wording: the lowercased word tokens longer
than 2 characters outside the stop-word set, deduplicated keeping first
occurrences, truncated to 20. -/
def spec_extract_keywords (text : String) : List String :=
  (specDedupFirst ((wordTokens (lowerStr text)).filter
    (fun w => decide (2 < w.length ∧ w ∉ stop_words)))).take 20

/-- Dot product; on unit vectors it is exactly the cosine similarity
that sklearn computes, with no rounding. -/
def dotQ (a b : List ℚ) : ℚ := (List.zipWith (fun x y => x * y) a b).sum

/-- Fixture documents. -/
def doc3 : Doc := { id := 3, title := "three", content := "c3", content_type := "t" }
def doc5 : Doc := { id := 5, title := "five", content := "c5", content_type := "t" }
def doc7 : Doc := { id := 7, title := "seven", content := "c7", content_type := "t" }

/-- Fixture vector index holding two unit vectors, id 5 stored before
id 3, both identical, so both score 1 against the query [1, 0]. -/
def vsEx : VectorSearch :=
  { embedding_dimension := 2,
    embeddings := [(5, [1, 0]), (3, [1, 0])],
    content_metadata := [(5, doc5), (3, doc3)] }

/-- Fixture persisted index file whose stored dimension is 3. -/
def fileEx : VectorSearch.IndexFile :=
  { embeddings := [(7, [1, 2, 3])], metadata := [(7, doc7)], dimension := 3 }

/-- Fixture keyword index fitted on one document. -/
def ksEx : KeywordSearch :=
  { tfidf_matrix := some ["a b"], content_metadata := [(1, { id := 1, title := "a", content := "b", content_type := "t" })] }

/-- Fixture tfidf similarity: every fitted row scores 1, as sklearn
returns for a query identical to the single stored document. -/
def simEx (corpus : List String) (_query : String) : List ℚ :=
  corpus.map (fun _ => (1 : ℚ))

/-- Stand-in for hashlib md5 hexdigest in witnesses: the constant
digest of the empty string, 32 hex characters like every md5 digest. -/
def md5Fix (_s : String) : String := "d41d8cd98f00b204e9800998ecf8427e"

/-- Fixture knowledge record carrying no usable title or body. -/
def recEmpty : KnowledgeData :=
  { id := 1, title := none, content := none, content_type := none, metadata := [] }

/-- Fixture profile carrying no usable text at all. -/
def profEmpty : ProfileData :=
  { id := 2, name := none, role := none, department := none, bio := none,
    contact := [], source_url := none }

namespace SearchIndexManager

/-- The number of requests of a sequence that succeed, each judged on
the state at which it is applied. -/
def succCount (md5hex : String → String) (now : String) :
    SearchIndexManager → List Op → ℕ
  | _, [] => 0
  | m, op :: rest =>
    (if opSucceeds m op then 1 else 0) +
      succCount md5hex now (applyOp md5hex now m op) rest

end SearchIndexManager

/-- Fixture manager with rebuild threshold 1 and fresh counters. -/
def mgrT1 : SearchIndexManager :=
  { content_indexer := { indexed_content := [] }, rebuild_threshold := 1,
    changes_since_rebuild := 0, rebuilds := 0 }

/-- Fixture mutation request: add one knowledge record. -/
def opAdd1 : SearchIndexManager.Op := .add (.knowledge recEmpty)


/-- Fixture vector-side candidate list for the hybrid merge. -/
def vrFix : List SearchResult :=
  [{ content_id := 5, title := "five", content := "c5", score := 1,
     content_type := "t", metadata := doc5 }]

/-- Fixture keyword-side candidate list for the hybrid merge. -/
def krFix : List SearchResult :=
  [{ content_id := 3, title := "three", content := "c3", score := 1/2,
     content_type := "t", metadata := doc3 }]

/-! Shared lemmas about the dict model. -/

namespace Dict

variable {K V : Type} [DecidableEq K]

theorem get?_nil (k : K) : get? ([] : Dict K V) k = none := rfl

theorem get?_cons (e : K × V) (d : Dict K V) (k : K) :
    get? (e :: d) k = if e.1 = k then some e.2 else get? d k := by
  unfold get?
  by_cases h : e.1 = k <;> simp [List.find?_cons, h]

theorem get?_eq_none_of_not_mem {d : Dict K V} {k : K} (h : k ∉ keys d) :
    get? d k = none := by
  induction d with
  | nil => rfl
  | cons e rest ih =>
    rw [get?_cons]
    simp only [keys, List.map_cons, List.mem_cons, not_or] at h
    rw [if_neg (fun hc => h.1 hc.symm)]
    exact ih h.2

theorem get?_eq_some_of_mem {d : Dict K V} {e : K × V}
    (hnd : (keys d).Nodup) (he : e ∈ d) : get? d e.1 = some e.2 := by
  induction d with
  | nil => cases he
  | cons a rest ih =>
    rw [get?_cons]
    rcases List.mem_cons.mp he with rfl | hmem
    · rw [if_pos rfl]
    · have hne : a.1 ≠ e.1 := by
        intro hcontra
        have : e.1 ∈ keys rest := List.mem_map_of_mem Prod.fst hmem
        rw [← hcontra] at this
        exact (List.nodup_cons.mp hnd).1 this
      rw [if_neg hne]
      exact ih (List.nodup_cons.mp hnd).2 hmem

theorem get?_map_update {d : Dict K V} {k : K} (v : V) (h : k ∈ keys d) :
    get? (d.map fun e => if e.1 = k then (k, v) else e) k = some v := by
  induction d with
  | nil => cases h
  | cons e rest ih =>
    by_cases he : e.1 = k
    · simp [get?_cons, he]
    · rw [List.map_cons, if_neg he, get?_cons, if_neg he]
      simp only [keys, List.map_cons, List.mem_cons] at h
      exact ih (h.resolve_left (fun hk => he hk.symm))

theorem get?_append_single_self {d : Dict K V} {k : K} (v : V) (h : k ∉ keys d) :
    get? (d ++ [(k, v)]) k = some v := by
  induction d with
  | nil => simp [get?_cons]
  | cons e rest ih =>
    simp only [keys, List.map_cons, List.mem_cons, not_or] at h
    rw [List.cons_append, get?_cons, if_neg (fun hc => h.1 hc.symm)]
    exact ih h.2

theorem get?_insert_self (d : Dict K V) (k : K) (v : V) :
    get? (insert d k v) k = some v := by
  unfold insert
  by_cases h : k ∈ keys d
  · rw [if_pos h]; exact get?_map_update v h
  · rw [if_neg h]; exact get?_append_single_self v h

theorem get?_map_update_ne (d : Dict K V) (k : K) (v : V) {k' : K} (h : k' ≠ k) :
    get? (d.map fun e => if e.1 = k then (k, v) else e) k' = get? d k' := by
  induction d with
  | nil => rfl
  | cons e rest ih =>
    by_cases he : e.1 = k
    · rw [List.map_cons, if_pos he, get?_cons, get?_cons,
        if_neg (fun hc => h hc.symm),
        if_neg (fun hc : e.1 = k' => h (he ▸ hc).symm)]
      exact ih
    · rw [List.map_cons, if_neg he, get?_cons, get?_cons]
      by_cases hek : e.1 = k'
      · rw [if_pos hek, if_pos hek]
      · rw [if_neg hek, if_neg hek]
        exact ih

theorem get?_append_single_ne (d : Dict K V) (k : K) (v : V) {k' : K} (h : k' ≠ k) :
    get? (d ++ [(k, v)]) k' = get? d k' := by
  induction d with
  | nil => rw [List.nil_append, get?_cons, get?_nil, if_neg (fun hc => h hc.symm)]
  | cons e rest ih =>
    rw [List.cons_append, get?_cons, get?_cons]
    by_cases hek : e.1 = k'
    · rw [if_pos hek, if_pos hek]
    · rw [if_neg hek, if_neg hek]
      exact ih

theorem get?_insert_ne (d : Dict K V) (k : K) (v : V) {k' : K} (h : k' ≠ k) :
    get? (insert d k v) k' = get? d k' := by
  unfold insert
  by_cases hm : k ∈ keys d
  · rw [if_pos hm]; exact get?_map_update_ne d k v h
  · rw [if_neg hm]; exact get?_append_single_ne d k v h

theorem mem_keys_insert (d : Dict K V) (k : K) (v : V) (k' : K) :
    k' ∈ keys (insert d k v) ↔ k' ∈ keys d ∨ k' = k := by
  rw [keys_insert]
  by_cases h : k ∈ keys d
  · rw [if_pos h]
    constructor
    · exact Or.inl
    · rintro (hk | rfl)
      · exact hk
      · exact h
  · rw [if_neg h]
    simp

theorem nodup_keys_insert {d : Dict K V} (k : K) (v : V)
    (hnd : (keys d).Nodup) : (keys (insert d k v)).Nodup := by
  rw [keys_insert]
  by_cases h : k ∈ keys d
  · rwa [if_pos h]
  · rw [if_neg h]
    simp [List.nodup_append, hnd, h]

end Dict

/-! Shared lemmas about the stable descending sort. -/

theorem insertDesc_perm (x : SearchResult) (l : List SearchResult) :
    List.Perm (insertDesc x l) (x :: l) := by
  induction l with
  | nil => exact List.Perm.refl _
  | cons y ys ih =>
    unfold insertDesc
    by_cases h : x.score ≤ y.score
    · rw [if_pos h]
      exact (ih.cons y).trans (List.Perm.swap x y ys)
    · rw [if_neg h]

theorem mem_insertDesc {z x : SearchResult} {l : List SearchResult} :
    z ∈ insertDesc x l ↔ z = x ∨ z ∈ l := by
  rw [(insertDesc_perm x l).mem_iff, List.mem_cons]

theorem foldl_insertDesc_perm (l acc : List SearchResult) :
    List.Perm (l.foldl (fun a x => insertDesc x a) acc) (acc ++ l) := by
  induction l generalizing acc with
  | nil => simp
  | cons x rest ih =>
    exact (ih (insertDesc x acc)).trans
      (((insertDesc_perm x acc).append_right rest).trans List.perm_middle.symm)

theorem sortDesc_perm (l : List SearchResult) : List.Perm (sortDesc l) l :=
  foldl_insertDesc_perm l []

theorem sortDesc_length (l : List SearchResult) :
    (sortDesc l).length = l.length :=
  (sortDesc_perm l).length_eq

/-- Inserting preserves the descending sortedness of the accumulator. -/
theorem insertDesc_pairwise_ge {x : SearchResult} {l : List SearchResult}
    (hl : l.Pairwise (fun a b => b.score ≤ a.score)) :
    (insertDesc x l).Pairwise (fun a b => b.score ≤ a.score) := by
  induction l with
  | nil => exact List.pairwise_singleton _ x
  | cons y ys ih =>
    rcases List.pairwise_cons.mp hl with ⟨hy, hys⟩
    unfold insertDesc
    by_cases h : x.score ≤ y.score
    · rw [if_pos h]
      refine List.pairwise_cons.mpr ⟨?_, ih hys⟩
      intro z hz
      rcases mem_insertDesc.mp hz with rfl | hz
      · exact h
      · exact hy z hz
    · rw [if_neg h]
      refine List.pairwise_cons.mpr ⟨?_, hl⟩
      intro z hz
      rcases List.mem_cons.mp hz with rfl | hz
      · exact le_of_lt (lt_of_not_le h)
      · exact le_trans (hy z hz) (le_of_lt (lt_of_not_le h))

theorem sortDesc_sorted (l : List SearchResult) :
    (sortDesc l).Pairwise (fun a b => b.score ≤ a.score) := by
  suffices h : ∀ acc : List SearchResult,
      acc.Pairwise (fun a b => b.score ≤ a.score) →
      (l.foldl (fun a x => insertDesc x a) acc).Pairwise (fun a b => b.score ≤ a.score) by
    exact h [] (List.Pairwise.nil)
  induction l with
  | nil => intro acc hacc; exact hacc
  | cons x rest ih =>
    intro acc hacc
    exact ih (insertDesc x acc) (insertDesc_pairwise_ge hacc)

/-- Inserting preserves the full stable order sKey p when the new
element has a larger position than everything already in the
accumulator. -/
theorem insertDesc_pairwise_sKey {p : SearchResult → ℕ} {x : SearchResult}
    {l : List SearchResult} (hl : l.Pairwise (sKey p))
    (hpos : ∀ y ∈ l, p y < p x) :
    (insertDesc x l).Pairwise (sKey p) := by
  induction l with
  | nil => exact List.pairwise_singleton _ x
  | cons y ys ih =>
    rcases List.pairwise_cons.mp hl with ⟨hy, hys⟩
    unfold insertDesc
    by_cases h : x.score ≤ y.score
    · rw [if_pos h]
      refine List.pairwise_cons.mpr ⟨?_, ?_⟩
      · intro z hz
        rcases mem_insertDesc.mp hz with rfl | hz
        · rcases lt_or_eq_of_le h with hlt | heq
          · exact Or.inl hlt
          · exact Or.inr ⟨heq.symm, hpos y (List.mem_cons_self y ys)⟩
        · exact hy z hz
      · exact ih hys (fun z hz => hpos z (List.mem_cons_of_mem y hz))
    · rw [if_neg h]
      refine List.pairwise_cons.mpr ⟨?_, hl⟩
      intro z hz
      rcases List.mem_cons.mp hz with rfl | hz
      · exact Or.inl (lt_of_not_le h)
      · rcases hy z hz with hlt | ⟨heq, _⟩
        · exact Or.inl (lt_trans hlt (lt_of_not_le h))
        · exact Or.inl (heq ▸ lt_of_not_le h)

/-- A stable descending sort of a list whose positions strictly
increase is pairwise ordered by score descending with position
ascending on ties. -/
theorem sortDesc_pairwise_sKey {p : SearchResult → ℕ} {l : List SearchResult}
    (hl : l.Pairwise (fun a b => p a < p b)) :
    (sortDesc l).Pairwise (sKey p) := by
  suffices h : ∀ acc : List SearchResult,
      acc.Pairwise (sKey p) →
      (∀ y ∈ acc, ∀ x ∈ l, p y < p x) →
      l.Pairwise (fun a b => p a < p b) →
      (l.foldl (fun a x => insertDesc x a) acc).Pairwise (sKey p) by
    exact h [] List.Pairwise.nil (by intro y hy; cases hy) hl
  clear hl
  induction l with
  | nil => intro acc hacc _ _; exact hacc
  | cons x rest ih =>
    intro acc hacc hcross hl
    rcases List.pairwise_cons.mp hl with ⟨hx, hrest⟩
    refine ih (insertDesc x acc) ?_ ?_ hrest
    · exact insertDesc_pairwise_sKey hacc
        (fun y hy => hcross y hy x (List.mem_cons_self x rest))
    · intro y hy x' hx'
      rcases mem_insertDesc.mp hy with rfl | hy
      · exact hx x' hx'
      · exact hcross y hy x' (List.mem_cons_of_mem x hx')

/-! Generic list helpers. -/

theorem pairwise_filterMap_of {α β : Type} {R : α → α → Prop} {S : β → β → Prop}
    {f : α → Option β} {l : List α}
    (h : ∀ a b x y, R a b → f a = some x → f b = some y → S x y)
    (hl : l.Pairwise R) : (l.filterMap f).Pairwise S := by
  induction l with
  | nil => exact List.Pairwise.nil
  | cons a rest ih =>
    rcases List.pairwise_cons.mp hl with ⟨ha, hrest⟩
    rw [List.filterMap_cons]
    cases hfa : f a with
    | none => exact ih hrest
    | some x =>
      refine List.pairwise_cons.mpr ⟨?_, ih hrest⟩
      intro y hy
      rcases List.mem_filterMap.mp hy with ⟨b, hb, hfb⟩
      exact h a b x y (ha b hb) hfa hfb

theorem length_filterMap_eq_countP {α β : Type} {f : α → Option β}
    {p : α → Bool} (h : ∀ a, (f a).isSome = p a) (l : List α) :
    (l.filterMap f).length = l.countP p := by
  induction l with
  | nil => rfl
  | cons a rest ih =>
    rw [List.filterMap_cons, List.countP_cons]
    cases hfa : f a with
    | none =>
      have hp : p a = false := by rw [← h a, hfa]; rfl
      rw [hp]
      simpa using ih
    | some x =>
      have hp : p a = true := by rw [← h a, hfa]; rfl
      rw [hp]
      simp [ih]

theorem firstPos_cons (x : ℤ) (rest : List ℤ) (cid : ℤ) :
    firstPos (x :: rest) cid = if x = cid then 0 else firstPos rest cid + 1 := rfl

theorem firstPos_cons_self (x : ℤ) (rest : List ℤ) :
    firstPos (x :: rest) x = 0 := by
  rw [firstPos_cons, if_pos rfl]

theorem firstPos_cons_ne (x : ℤ) (rest : List ℤ) {cid : ℤ} (h : x ≠ cid) :
    firstPos (x :: rest) cid = firstPos rest cid + 1 := by
  rw [firstPos_cons, if_neg h]

/-- In a duplicate-free id list, positions strictly increase along the
list. -/
theorem pairwise_firstPos {ids : List ℤ} (h : ids.Nodup) :
    ids.Pairwise (fun a b => firstPos ids a < firstPos ids b) := by
  induction ids with
  | nil => exact List.Pairwise.nil
  | cons x rest ih =>
    rcases List.nodup_cons.mp h with ⟨hx, hrest⟩
    refine List.pairwise_cons.mpr ⟨?_, ?_⟩
    · intro b hb
      have hbx : x ≠ b := fun hc => hx (hc ▸ hb)
      rw [firstPos_cons_self, firstPos_cons_ne x rest hbx]
      exact Nat.succ_pos _
    · refine (ih hrest).imp_of_mem ?_
      intro a b ha hb hab
      have hax : x ≠ a := fun hc => hx (hc ▸ ha)
      have hbx : x ≠ b := fun hc => hx (hc ▸ hb)
      rw [firstPos_cons_ne x rest hax, firstPos_cons_ne x rest hbx]
      exact Nat.succ_lt_succ hab

/-! Claim C6. -/

/-- C6: adding a vector whose length differs from the configured
embedding dimension fails with the dimension-mismatch error, and no
successor state is produced, so the embeddings map and the metadata map
are exactly what they were before the call. -/
theorem C6_add_embedding_rejects_wrong_dimension (vs : VectorSearch)
    (content_id : ℤ) (embedding : List ℚ) (metadata : Doc)
    (h : embedding.length ≠ vs.embedding_dimension) :
    vs.add_embedding content_id embedding metadata =
      Except.error (.dimensionMismatch vs.embedding_dimension embedding.length) ∧
    ∀ vs', vs.add_embedding content_id embedding metadata ≠ Except.ok vs' := by
  unfold VectorSearch.add_embedding
  rw [if_pos h]
  exact ⟨rfl, fun vs' hc => Except.noConfusion hc⟩

/-- Witness for C6 at a concrete wrong-sized vector on the fixture
index of dimension 2. -/
theorem C6_witness :
    vsEx.add_embedding 9 [1, 2, 3] doc7 =
      Except.error (.dimensionMismatch 2 3) ∧
    ∀ vs', vsEx.add_embedding 9 [1, 2, 3] doc7 ≠ Except.ok vs' :=
  C6_add_embedding_rejects_wrong_dimension vsEx 9 [1, 2, 3] doc7 (by decide)

/-! Claim C5. -/

/-- C5 counterexample: loading a file whose stored dimension 3 differs
from the configured dimension 2 does not fail; it succeeds and the
resulting in-memory index has adopted the stored dimension and
contents, so it is no longer the previous index. -/
theorem C5_counterexample :
    fileEx.dimension ≠ vsEx.embedding_dimension ∧
    VectorSearch.load_index vsEx fileEx =
      Except.ok { embedding_dimension := 3,
                  embeddings := [(7, [1, 2, 3])],
                  content_metadata := [(7, doc7)] } ∧
    ({ embedding_dimension := 3, embeddings := [(7, [1, 2, 3])],
       content_metadata := [(7, doc7)] } : VectorSearch) ≠ vsEx := by
  refine ⟨by decide, rfl, by decide⟩

/-- C5 amended: load_index never rejects a well-formed index file; it
silently adopts the stored dimension, embeddings and metadata,
discarding the previous in-memory state entirely. -/
theorem C5_load_index_adopts_stored_state (vs : VectorSearch)
    (file : VectorSearch.IndexFile) :
    VectorSearch.load_index vs file =
      Except.ok { embedding_dimension := file.dimension,
                  embeddings := file.embeddings,
                  content_metadata := file.metadata } := rfl

/-! Claim C10. -/

/-- One vector-index mutation preserves equality of the two key
sequences. -/
theorem applyVSOp_keys_eq {vs : VectorSearch}
    (h : vs.embeddings.keys = vs.content_metadata.keys)
    (op : VectorSearch.VSOp) :
    ((vs.applyVSOp op).embeddings.keys = (vs.applyVSOp op).content_metadata.keys) := by
  cases op with
  | add cid emb md =>
    by_cases hd : emb.length ≠ vs.embedding_dimension
    · have happ : vs.applyVSOp (.add cid emb md) = vs := by
        show (match vs.add_embedding cid emb md with
              | Except.ok vs' => vs'
              | Except.error _ => vs) = vs
        unfold VectorSearch.add_embedding
        rw [if_pos hd]
      rw [happ]
      exact h
    · have happ : vs.applyVSOp (.add cid emb md) =
          { vs with embeddings := vs.embeddings.insert cid emb,
                    content_metadata := vs.content_metadata.insert cid md } := by
        show (match vs.add_embedding cid emb md with
              | Except.ok vs' => vs'
              | Except.error _ => vs) = _
        unfold VectorSearch.add_embedding
        rw [if_neg hd]
      rw [happ]
      show Dict.keys (vs.embeddings.insert cid emb) =
        Dict.keys (vs.content_metadata.insert cid md)
      rw [Dict.keys_insert, Dict.keys_insert, h]
  | remove cid =>
    show Dict.keys (vs.embeddings.erase cid) =
      Dict.keys (vs.content_metadata.erase cid)
    rw [Dict.keys_erase, Dict.keys_erase, h]

/-- Any run of mutations preserves equality of the two key sequences. -/
theorem runVS_keys_eq {vs : VectorSearch}
    (h : vs.embeddings.keys = vs.content_metadata.keys)
    (ops : List VectorSearch.VSOp) :
    ((vs.runVS ops).embeddings.keys = (vs.runVS ops).content_metadata.keys) := by
  induction ops generalizing vs with
  | nil => exact h
  | cons op rest ih => exact ih (applyVSOp_keys_eq h op)

/-- C10: starting from an empty index, after every sequence of add and
remove operations (failed adds leave the state alone) the key sequence
of the embeddings map equals the key sequence of the content-metadata
map, so no id is ever present in one but not the other. -/
theorem C10_keys_synchronized (dim : ℕ) (ops : List VectorSearch.VSOp) :
    ((VectorSearch.init dim).runVS ops).embeddings.keys =
      ((VectorSearch.init dim).runVS ops).content_metadata.keys :=
  runVS_keys_eq rfl ops

/-! Claim C9. -/

theorem hexPairs_length : ∀ cs : List Char,
    (hexPairs cs).length = (cs.length + 1) / 2
  | [] => rfl
  | [a] => by
    show ([((hexDigitVal a : ℚ) / 255) * 2 - 1]).length = ([a].length + 1) / 2
    simp only [List.length_cons, List.length_nil]
  | a :: b :: rest => by
    show ((((16 * hexDigitVal a + hexDigitVal b : ℚ) / 255) * 2 - 1) :: hexPairs rest).length = _
    rw [List.length_cons, hexPairs_length rest]
    simp only [List.length_cons]
    omega

theorem padEmbedding_length_ge_aux (dim : ℕ) :
    ∀ n (e : List ℚ), dim - e.length ≤ n → 0 < e.length →
      dim ≤ (padEmbedding dim e).length := by
  intro n
  induction n with
  | zero =>
    intro e hn hpos
    rw [padEmbedding]
    have hge : dim ≤ e.length := by omega
    rw [dif_neg (by omega)]
    exact hge
  | succ n ih =>
    intro e hn hpos
    rw [padEmbedding]
    by_cases hlt : e.length < dim
    · rw [dif_pos ⟨hlt, hpos⟩]
      have hmin : 1 ≤ min e.length (dim - e.length) := by omega
      have hlen : (e ++ e.take (min e.length (dim - e.length))).length =
          e.length + min e.length (dim - e.length) := by
        rw [List.length_append, List.length_take]
        omega
      apply ih
      · omega
      · omega
    · rw [dif_neg (by omega)]
      omega

theorem padEmbedding_length_ge {dim : ℕ} {e : List ℚ} (hpos : 0 < e.length) :
    dim ≤ (padEmbedding dim e).length :=
  padEmbedding_length_ge_aux dim (dim - e.length) e le_rfl hpos

theorem create_hash_embedding_length {digest : String}
    (h : digest.length = 32) : (create_hash_embedding digest).length = 384 := by
  unfold create_hash_embedding
  rw [List.length_take]
  have hlist : digest.toList.length = 32 := h
  have hpx : (hexPairs digest.toList).length = 16 := by
    rw [hexPairs_length, hlist]
  have hge : embeddingDimension ≤
      (padEmbedding embeddingDimension (hexPairs digest.toList)).length :=
    padEmbedding_length_ge (by omega)
  unfold embeddingDimension at hge ⊢
  omega

/-- C9: generate_embedding is total, and whenever the md5 hex digest of
the preprocessed text has its guaranteed 32 characters the resulting
vector has exactly the configured dimension 384, for every input text
including the empty string and text that preprocesses to empty. -/
theorem C9_generate_embedding_length (md5hex : String → String) (text : String)
    (h : (md5hex (preprocess_text text)).length = 32) :
    (generate_embedding md5hex text).length = 384 :=
  create_hash_embedding_length h

/-- Witness for C9 on the empty string with the fixture digest, which
is the true md5 hex digest of the empty string. -/
theorem C9_witness : (generate_embedding md5Fix "").length = 384 :=
  C9_generate_embedding_length md5Fix "" (by decide)

/-! Claim C4. -/

/-- C4 counterexample: indexing a knowledge record with no usable title
and no usable body does not fail; the record is stored, so the
indexed-content map changes from empty to holding id 1. -/
theorem C4_counterexample :
    ((ContentIndexer.index_knowledge_entry md5Fix "t0"
        { indexed_content := [] } recEmpty).2.indexed_content).keys = [1] ∧
    (([1] : List ℤ) ≠ []) :=
  ⟨rfl, by decide⟩

/-- C4 amended: indexing a source record with no usable title and no
usable body text never raises; the entry is built with an empty keyword
list (and a fallback embedding of the residual whitespace text) and is
stored in the indexed-content map under its id, for both the knowledge
and the profile entry points. -/
theorem C4_empty_records_are_stored (md5hex : String → String) (now : String)
    (st : ContentIndexer) (k : KnowledgeData) (p : ProfileData)
    (hkt : k.title.getD "" = "") (hkc : k.content.getD "" = "")
    (hpn : optTruthy p.name = false) (hpr : optTruthy p.role = false)
    (hpd : optTruthy p.department = false) (hpb : optTruthy p.bio = false)
    (hpc : ∀ kv ∈ p.contact, kv.2 = "") :
    ((ContentIndexer.index_knowledge_entry md5hex now st k).1.keywords = [] ∧
     (ContentIndexer.index_knowledge_entry md5hex now st k).2.indexed_content =
       st.indexed_content.insert k.id
         (ContentIndexer.index_knowledge_entry md5hex now st k).1) ∧
    ((ContentIndexer.index_profile md5hex now st p).1.keywords = [] ∧
     (ContentIndexer.index_profile md5hex now st p).2.indexed_content =
       st.indexed_content.insert p.id
         (ContentIndexer.index_profile md5hex now st p).1) := by
  have htext : k.title.getD "" ++ " " ++ k.content.getD "" = " " := by
    rw [hkt, hkc]
    decide
  have hfields : [p.name, p.role, p.department, p.bio].filter optTruthy = [] := by
    simp [List.filter_cons, hpn, hpr, hpd, hpb]
  have hcontact : p.contact.filter (fun kv => !decide (kv.2 = "")) = [] := by
    rw [List.filter_eq_nil_iff]
    intro kv hkv
    rw [hpc kv hkv]
    decide
  have hcomb : combine_profile_text p = "" := by
    show String.intercalate " "
      (([p.name, p.role, p.department, p.bio].filter optTruthy).map (fun o => o.getD "") ++
       (p.contact.filter (fun kv => !decide (kv.2 = ""))).map (fun kv => kv.1 ++ ": " ++ kv.2)) = ""
    rw [hfields, hcontact]
    rfl
  refine ⟨⟨?_, rfl⟩, ⟨?_, rfl⟩⟩
  · show extract_keywords (k.title.getD "" ++ " " ++ k.content.getD "") = []
    rw [htext]
    decide
  · show extract_keywords (combine_profile_text p) = []
    rw [hcomb]
    decide

/-- Witness for C4 amended on the empty knowledge and profile
fixtures. -/
theorem C4_witness :
    ((ContentIndexer.index_knowledge_entry md5Fix "t0"
        { indexed_content := [] } recEmpty).1.keywords = [] ∧
     (ContentIndexer.index_knowledge_entry md5Fix "t0"
        { indexed_content := [] } recEmpty).2.indexed_content =
       Dict.insert ([] : Dict ℤ Entry) recEmpty.id
         (ContentIndexer.index_knowledge_entry md5Fix "t0"
            { indexed_content := [] } recEmpty).1) ∧
    ((ContentIndexer.index_profile md5Fix "t0"
        { indexed_content := [] } profEmpty).1.keywords = [] ∧
     (ContentIndexer.index_profile md5Fix "t0"
        { indexed_content := [] } profEmpty).2.indexed_content =
       Dict.insert ([] : Dict ℤ Entry) profEmpty.id
         (ContentIndexer.index_profile md5Fix "t0"
            { indexed_content := [] } profEmpty).1) :=
  C4_empty_records_are_stored md5Fix "t0" { indexed_content := [] }
    recEmpty profEmpty rfl rfl rfl rfl rfl rfl (by intro kv hkv; cases hkv)

/-! Claim C7. -/

/-- A keyword search over a state whose metadata map is empty returns
no results, whatever matrix is fitted: every enumerated similarity row
index misses the empty key list. -/
theorem kwSearch_empty_metadata (tfidfSim : List String → String → List ℚ)
    (ks : KeywordSearch) (query : String) (top_k : ℕ) (min_score : ℚ)
    (hmd : ks.content_metadata = []) :
    KeywordSearch.search tfidfSim ks query top_k min_score = [] := by
  unfold KeywordSearch.search
  rw [hmd]
  cases hm : ks.tfidf_matrix with
  | none => rfl
  | some corpus =>
    show (sortDesc ((tfidfSim corpus query).enum.filterMap _)).take top_k = []
    rw [List.filterMap_eq_nil_iff.mpr ?_]
    · rw [show sortDesc ([] : List SearchResult) = [] from rfl, List.take_nil]
    · intro p _
      by_cases hms : min_score ≤ p.2
      · rw [if_pos hms,
          show (Dict.keys ([] : Dict ℤ Doc))[p.1]? = none from rfl]
      · rw [if_neg hms]

/-- C7 counterexample: with an index fitted on one document whose
search returns one result, rebuilding on the empty corpus leaves the
fitted matrix in place but clears the metadata, after which the same
query returns no results instead of the pre-rebuild results. -/
theorem C7_counterexample :
    KeywordSearch.search simEx (KeywordSearch.build_index ksEx []) "a b" 10 (1/10) = [] ∧
    KeywordSearch.search simEx ksEx "a b" 10 (1/10) ≠ [] := by
  constructor
  · exact kwSearch_empty_metadata simEx _ "a b" 10 (1/10) rfl
  · have hval : KeywordSearch.search simEx ksEx "a b" 10 (1/10) =
        [{ content_id := 1, title := "a", content := "b", score := 1,
           content_type := "t",
           metadata := { id := 1, title := "a", content := "b", content_type := "t" } }] := by
      simp [KeywordSearch.search, ksEx, simEx, Dict.keys, Dict.get?, sortDesc,
        List.enum, List.filterMap_cons]
      norm_num
      simp [insertDesc]
    rw [hval]
    intro hc
    cases hc

/-- C7 amended: build_index on an empty document list raises nothing
and keeps the previously fitted matrix, but it clears content_metadata,
so every subsequent search returns the empty list rather than the
results the retained matrix produced before. -/
theorem C7_empty_rebuild_clears_metadata
    (tfidfSim : List String → String → List ℚ) (ks : KeywordSearch)
    (query : String) (top_k : ℕ) (min_score : ℚ) :
    (ks.build_index []).tfidf_matrix = ks.tfidf_matrix ∧
    (ks.build_index []).content_metadata = [] ∧
    KeywordSearch.search tfidfSim (ks.build_index []) query top_k min_score = [] :=
  ⟨rfl, rfl, kwSearch_empty_metadata tfidfSim _ query top_k min_score rfl⟩

/-! Claim C8. -/

theorem dedupeSeen_eq_foldl_aux :
    ∀ (l seen acc : List String), (∀ w, w ∈ seen ↔ w ∈ acc) →
      acc ++ dedupeSeen l seen =
        l.foldl (fun acc w => if w ∈ acc then acc else acc ++ [w]) acc := by
  intro l
  induction l with
  | nil => intro seen acc _; simp [dedupeSeen]
  | cons w rest ih =>
    intro seen acc hiff
    by_cases hw : w ∈ seen
    · have hw' : w ∈ acc := (hiff w).mp hw
      show acc ++ (if w ∈ seen then dedupeSeen rest seen
                   else w :: dedupeSeen rest (w :: seen)) = _
      rw [if_pos hw]
      show _ = List.foldl _ (if w ∈ acc then acc else acc ++ [w]) rest
      rw [if_pos hw']
      exact ih seen acc hiff
    · have hw' : w ∉ acc := fun hc => hw ((hiff w).mpr hc)
      show acc ++ (if w ∈ seen then dedupeSeen rest seen
                   else w :: dedupeSeen rest (w :: seen)) = _
      rw [if_neg hw]
      show _ = List.foldl _ (if w ∈ acc then acc else acc ++ [w]) rest
      rw [if_neg hw']
      have hstep : acc ++ w :: dedupeSeen rest (w :: seen) =
          (acc ++ [w]) ++ dedupeSeen rest (w :: seen) := by simp
      rw [hstep]
      refine ih (w :: seen) (acc ++ [w]) ?_
      intro v
      rw [List.mem_cons, List.mem_append, List.mem_singleton, hiff v, or_comm]

theorem dedupeSeen_eq_specDedupFirst (l : List String) :
    dedupeSeen l [] = specDedupFirst l := by
  have h := dedupeSeen_eq_foldl_aux l [] [] (by intro w; rfl)
  rw [List.nil_append] at h
  exact h

theorem dedupeSeen_nodup_and_not_mem :
    ∀ (l seen : List String),
      (dedupeSeen l seen).Nodup ∧ ∀ w ∈ dedupeSeen l seen, w ∉ seen := by
  intro l
  induction l with
  | nil => intro seen; exact ⟨List.Pairwise.nil, by intro w hw; cases hw⟩
  | cons w rest ih =>
    intro seen
    have hd : dedupeSeen (w :: rest) seen =
        if w ∈ seen then dedupeSeen rest seen
        else w :: dedupeSeen rest (w :: seen) := rfl
    by_cases hw : w ∈ seen
    · rw [hd, if_pos hw]
      exact ih seen
    · rw [hd, if_neg hw]
      rcases ih (w :: seen) with ⟨hnd, hnm⟩
      constructor
      · rw [List.nodup_cons]
        exact ⟨fun hc => hnm w hc (List.mem_cons_self w seen), hnd⟩
      · intro v hv
        rcases List.mem_cons.mp hv with rfl | hv
        · exact hw
        · exact fun hc => hnm v hv (List.mem_cons_of_mem w hc)

/-- C8: keyword extraction computes exactly the pipeline the spec
words describe: lowercased word tokens of the text, tokens of length
at most 2 and stop words discarded, deduplicated keeping the first
occurrence of each token, truncated to at most 20 keywords; moreover
the output is duplicate-free and never longer than 20. -/
theorem C8_extract_keywords_spec (text : String) :
    extract_keywords text = spec_extract_keywords text ∧
    (extract_keywords text).length ≤ 20 ∧
    (extract_keywords text).Nodup := by
  have hfl : (wordTokens (lowerStr text)).filter
        (fun w => decide (2 < w.length) && decide (w ∉ stop_words)) =
      (wordTokens (lowerStr text)).filter
        (fun w => decide (2 < w.length ∧ w ∉ stop_words)) := by
    refine List.filter_congr ?_
    intro w _
    by_cases h1 : 2 < w.length <;> by_cases h2 : w ∉ stop_words <;>
      simp [h1, h2]
  have heq : extract_keywords text = spec_extract_keywords text := by
    by_cases h : text = ""
    · have hlhs : extract_keywords text = [] := by
        rw [extract_keywords, if_pos h]
      rw [hlhs, h]
      rfl
    · have hlhs : extract_keywords text =
          (dedupeSeen ((wordTokens (lowerStr text)).filter
            (fun w => decide (2 < w.length) && decide (w ∉ stop_words))) []).take 20 := by
        rw [extract_keywords, if_neg h]
      rw [hlhs, hfl, dedupeSeen_eq_specDedupFirst]
      rfl
  refine ⟨heq, ?_, ?_⟩
  · unfold extract_keywords
    by_cases h : text = ""
    · rw [if_pos h]
      exact Nat.zero_le 20
    · rw [if_neg h]
      exact List.length_take_le 20 _
  · unfold extract_keywords
    by_cases h : text = ""
    · rw [if_pos h]
      exact List.Pairwise.nil
    · rw [if_neg h]
      exact List.Nodup.sublist (List.take_sublist 20 _)
        (dedupeSeen_nodup_and_not_mem _ []).1


/-! Claim C3. -/

namespace SearchIndexManager

theorem check_rebuild_spec (m : SearchIndexManager) :
    (m.check_rebuild_needed).rebuild_threshold = m.rebuild_threshold ∧
    (m.check_rebuild_needed).changes_since_rebuild =
      (if m.rebuild_threshold ≤ m.changes_since_rebuild then 0
       else m.changes_since_rebuild) ∧
    (m.check_rebuild_needed).rebuilds =
      (if m.rebuild_threshold ≤ m.changes_since_rebuild then m.rebuilds + 1
       else m.rebuilds) ∧
    (m.check_rebuild_needed).content_indexer = m.content_indexer := by
  unfold check_rebuild_needed rebuild_indexes
  by_cases h : m.rebuild_threshold ≤ m.changes_since_rebuild
  · rw [if_pos h, if_pos h, if_pos h]
    exact ⟨rfl, rfl, rfl, rfl⟩
  · rw [if_neg h, if_neg h, if_neg h]
    exact ⟨rfl, rfl, rfl, rfl⟩

theorem update_content_snd_of_mem (md5hex : String → String) (now : String)
    (m : SearchIndexManager) (cid : ℤ) (d : ContentIndexer.Record)
    (h : cid ∈ Dict.keys m.content_indexer.indexed_content) :
    (m.update_content md5hex now cid d).2 =
      check_rebuild_needed
        { m with
          content_indexer := (ContentIndexer.indexRecord md5hex now m.content_indexer d).2,
          changes_since_rebuild := m.changes_since_rebuild + 1 } := by
  unfold update_content ContentIndexer.update_index
  rw [if_pos h]

theorem update_content_snd_of_not_mem (md5hex : String → String) (now : String)
    (m : SearchIndexManager) (cid : ℤ) (d : ContentIndexer.Record)
    (h : cid ∉ Dict.keys m.content_indexer.indexed_content) :
    (m.update_content md5hex now cid d).2 = m := by
  unfold update_content ContentIndexer.update_index
  rw [if_neg h]

theorem remove_content_snd_of_mem (m : SearchIndexManager) (cid : ℤ)
    (h : cid ∈ Dict.keys m.content_indexer.indexed_content) :
    (m.remove_content cid).2 =
      check_rebuild_needed
        { m with
          content_indexer :=
            { indexed_content := m.content_indexer.indexed_content.erase cid },
          changes_since_rebuild := m.changes_since_rebuild + 1 } := by
  unfold remove_content ContentIndexer.remove_from_index
  rw [if_pos h]
  rfl

theorem remove_content_snd_of_not_mem (m : SearchIndexManager) (cid : ℤ)
    (h : cid ∉ Dict.keys m.content_indexer.indexed_content) :
    (m.remove_content cid).2 = m := by
  unfold remove_content ContentIndexer.remove_from_index
  rw [if_neg h]
  rfl

theorem applyOp_counters (md5hex : String → String) (now : String)
    (m : SearchIndexManager) (op : Op) :
    (applyOp md5hex now m op).rebuild_threshold = m.rebuild_threshold ∧
    (opSucceeds m op →
      (applyOp md5hex now m op).changes_since_rebuild =
        (if m.rebuild_threshold ≤ m.changes_since_rebuild + 1 then 0
         else m.changes_since_rebuild + 1) ∧
      (applyOp md5hex now m op).rebuilds =
        (if m.rebuild_threshold ≤ m.changes_since_rebuild + 1 then m.rebuilds + 1
         else m.rebuilds)) ∧
    (¬ opSucceeds m op →
      (applyOp md5hex now m op).changes_since_rebuild = m.changes_since_rebuild ∧
      (applyOp md5hex now m op).rebuilds = m.rebuilds) := by
  cases op with
  | add d =>
    have happ : applyOp md5hex now m (.add d) =
        check_rebuild_needed
          { m with
            content_indexer := (ContentIndexer.indexRecord md5hex now m.content_indexer d).2,
            changes_since_rebuild := m.changes_since_rebuild + 1 } := rfl
    rw [happ]
    rcases check_rebuild_spec
      { m with
        content_indexer := (ContentIndexer.indexRecord md5hex now m.content_indexer d).2,
        changes_since_rebuild := m.changes_since_rebuild + 1 } with ⟨h1, h2, h3, _⟩
    refine ⟨h1, fun _ => ⟨h2, h3⟩, fun hns => absurd trivial hns⟩
  | update cid d =>
    by_cases h : cid ∈ Dict.keys m.content_indexer.indexed_content
    · have happ : applyOp md5hex now m (.update cid d) =
          (m.update_content md5hex now cid d).2 := rfl
      rw [happ, update_content_snd_of_mem md5hex now m cid d h]
      rcases check_rebuild_spec
        { m with
          content_indexer := (ContentIndexer.indexRecord md5hex now m.content_indexer d).2,
          changes_since_rebuild := m.changes_since_rebuild + 1 } with ⟨h1, h2, h3, _⟩
      exact ⟨h1, fun _ => ⟨h2, h3⟩, fun hns => absurd h hns⟩
    · have happ : applyOp md5hex now m (.update cid d) =
          (m.update_content md5hex now cid d).2 := rfl
      rw [happ, update_content_snd_of_not_mem md5hex now m cid d h]
      exact ⟨rfl, fun hs => absurd hs h, fun _ => ⟨rfl, rfl⟩⟩
  | remove cid =>
    by_cases h : cid ∈ Dict.keys m.content_indexer.indexed_content
    · have happ : applyOp md5hex now m (.remove cid) = (m.remove_content cid).2 := rfl
      rw [happ, remove_content_snd_of_mem m cid h]
      rcases check_rebuild_spec
        { m with
          content_indexer :=
            { indexed_content := m.content_indexer.indexed_content.erase cid },
          changes_since_rebuild := m.changes_since_rebuild + 1 } with ⟨h1, h2, h3, _⟩
      exact ⟨h1, fun _ => ⟨h2, h3⟩, fun hns => absurd h hns⟩
    · have happ : applyOp md5hex now m (.remove cid) = (m.remove_content cid).2 := rfl
      rw [happ, remove_content_snd_of_not_mem m cid h]
      exact ⟨rfl, fun hs => absurd hs h, fun _ => ⟨rfl, rfl⟩⟩

end SearchIndexManager

namespace SearchIndexManager

theorem succCount_eq_length_of_allSucceed (md5hex : String → String) (now : String) :
    ∀ (ops : List Op) (m : SearchIndexManager),
      allSucceed md5hex now m ops → succCount md5hex now m ops = ops.length := by
  intro ops
  induction ops with
  | nil => intro m _; rfl
  | cons op rest ih =>
    intro m hall
    rcases hall with ⟨hs, hrest⟩
    show (if opSucceeds m op then 1 else 0) +
      succCount md5hex now (applyOp md5hex now m op) rest = rest.length + 1
    rw [if_pos hs, ih _ hrest]
    omega

theorem run_counters (md5hex : String → String) (now : String) :
    ∀ (ops : List Op) (m : SearchIndexManager),
      m.changes_since_rebuild < m.rebuild_threshold →
      (run md5hex now m ops).rebuild_threshold = m.rebuild_threshold ∧
      (run md5hex now m ops).changes_since_rebuild =
        (m.changes_since_rebuild + succCount md5hex now m ops) % m.rebuild_threshold ∧
      (run md5hex now m ops).rebuilds =
        m.rebuilds + (m.changes_since_rebuild + succCount md5hex now m ops) / m.rebuild_threshold := by
  intro ops
  induction ops with
  | nil =>
    intro m hlt
    refine ⟨rfl, ?_, ?_⟩
    · show m.changes_since_rebuild = (m.changes_since_rebuild + 0) % m.rebuild_threshold
      rw [Nat.add_zero, Nat.mod_eq_of_lt hlt]
    · show m.rebuilds = m.rebuilds + (m.changes_since_rebuild + 0) / m.rebuild_threshold
      rw [Nat.add_zero, Nat.div_eq_of_lt hlt, Nat.add_zero]
  | cons op rest ih =>
    intro m hlt
    have hTpos : 0 < m.rebuild_threshold := Nat.lt_of_le_of_lt (Nat.zero_le _) hlt
    rcases applyOp_counters md5hex now m op with ⟨hth, hsucc, hfail⟩
    have hrun : run md5hex now m (op :: rest) =
        run md5hex now (applyOp md5hex now m op) rest := rfl
    have hcnt : succCount md5hex now m (op :: rest) =
        (if opSucceeds m op then 1 else 0) +
          succCount md5hex now (applyOp md5hex now m op) rest := rfl
    set m' := applyOp md5hex now m op with hm'
    by_cases hs : opSucceeds m op
    · rcases hsucc hs with ⟨hch, hrb⟩
      by_cases hT : m.rebuild_threshold ≤ m.changes_since_rebuild + 1
      · have heqT : m.changes_since_rebuild + 1 = m.rebuild_threshold := by omega
        have hch0 : m'.changes_since_rebuild = 0 := by rw [hch, if_pos hT]
        have hrb1 : m'.rebuilds = m.rebuilds + 1 := by rw [hrb, if_pos hT]
        have hlt' : m'.changes_since_rebuild < m'.rebuild_threshold := by
          rw [hch0, hth]; exact hTpos
        rcases ih m' hlt' with ⟨ih1, ih2, ih3⟩
        rw [hrun, hcnt, if_pos hs]
        refine ⟨by rw [ih1, hth], ?_, ?_⟩
        · rw [ih2, hch0, hth, Nat.zero_add]
          have harith : m.changes_since_rebuild +
              (1 + succCount md5hex now m' rest) =
              succCount md5hex now m' rest + m.rebuild_threshold := by omega
          rw [harith, Nat.add_mod_right]
        · rw [ih3, hrb1, hch0, hth, Nat.zero_add]
          have harith : m.changes_since_rebuild +
              (1 + succCount md5hex now m' rest) =
              succCount md5hex now m' rest + m.rebuild_threshold := by omega
          rw [harith, Nat.add_div_right _ hTpos]
          omega
      · have hch1 : m'.changes_since_rebuild = m.changes_since_rebuild + 1 := by
          rw [hch, if_neg hT]
        have hrb0 : m'.rebuilds = m.rebuilds := by rw [hrb, if_neg hT]
        have hlt' : m'.changes_since_rebuild < m'.rebuild_threshold := by
          rw [hch1, hth]; omega
        rcases ih m' hlt' with ⟨ih1, ih2, ih3⟩
        rw [hrun, hcnt, if_pos hs]
        have harith : m.changes_since_rebuild + 1 +
            succCount md5hex now m' rest =
            m.changes_since_rebuild + (1 + succCount md5hex now m' rest) := by omega
        refine ⟨by rw [ih1, hth], ?_, ?_⟩
        · rw [ih2, hch1, hth, harith]
        · rw [ih3, hrb0, hch1, hth, harith]
    · rcases hfail hs with ⟨hch, hrb⟩
      have hlt' : m'.changes_since_rebuild < m'.rebuild_threshold := by
        rw [hch, hth]; exact hlt
      rcases ih m' hlt' with ⟨ih1, ih2, ih3⟩
      rw [hrun, hcnt, if_neg hs]
      rw [Nat.zero_add]
      exact ⟨by rw [ih1, hth], by rw [ih2, hch, hth], by rw [ih3, hrb, hch, hth]⟩

end SearchIndexManager

open SearchIndexManager in
/-- C3: the constructor default threshold is 100; from a fresh manager
(counter 0, no rebuild yet, positive threshold) any sequence of
successful mutations keeps the counter below the threshold, a sequence
of exactly threshold many successful mutations triggers exactly one
rebuild and resets the counter to 0, and one of threshold minus one
mutations triggers none and leaves the counter at threshold minus 1. -/
theorem C3_rebuild_boundary (md5hex : String → String) (now : String)
    (m : SearchIndexManager) (ops : List SearchIndexManager.Op)
    (hfresh : m.changes_since_rebuild = 0) (hreb : m.rebuilds = 0)
    (hT : 0 < m.rebuild_threshold)
    (hall : allSucceed md5hex now m ops) :
    (SearchIndexManager.init).rebuild_threshold = 100 ∧
    (run md5hex now m ops).changes_since_rebuild < m.rebuild_threshold ∧
    (ops.length = m.rebuild_threshold →
      (run md5hex now m ops).rebuilds = 1 ∧
      (run md5hex now m ops).changes_since_rebuild = 0) ∧
    (ops.length = m.rebuild_threshold - 1 →
      (run md5hex now m ops).rebuilds = 0 ∧
      (run md5hex now m ops).changes_since_rebuild = m.rebuild_threshold - 1) := by
  have hlt : m.changes_since_rebuild < m.rebuild_threshold := by omega
  rcases run_counters md5hex now ops m hlt with ⟨h1, h2, h3⟩
  have hk := succCount_eq_length_of_allSucceed md5hex now ops m hall
  rw [hk, hfresh, Nat.zero_add] at h2 h3
  rw [hreb, Nat.zero_add] at h3
  refine ⟨rfl, ?_, ?_, ?_⟩
  · rw [h2]
    exact Nat.mod_lt _ hT
  · intro hlen
    rw [hlen] at h2 h3
    rw [h3, h2, Nat.mod_self, Nat.div_self hT]
    exact ⟨rfl, rfl⟩
  · intro hlen
    rw [hlen] at h2 h3
    have hlt1 : m.rebuild_threshold - 1 < m.rebuild_threshold := by omega
    rw [h3, h2, Nat.mod_eq_of_lt hlt1, Nat.div_eq_of_lt hlt1]
    exact ⟨rfl, rfl⟩

/-- Witness for C3 on a manager with threshold 1: the single
successful add triggers exactly one rebuild and resets the counter. -/
theorem C3_witness :
    (SearchIndexManager.run md5Fix "t0" mgrT1 [opAdd1]).rebuilds = 1 ∧
    (SearchIndexManager.run md5Fix "t0" mgrT1 [opAdd1]).changes_since_rebuild = 0 :=
  (C3_rebuild_boundary md5Fix "t0" mgrT1 [opAdd1] rfl rfl (by decide)
    ⟨trivial, trivial⟩).2.2.1 rfl


/-! Claim C2. -/

namespace Dict

theorem mem_insert_cases {K V : Type} [DecidableEq K] {d : Dict K V} {k : K}
    {v : V} {e : K × V} (h : e ∈ insert d k v) : e = (k, v) ∨ e ∈ d := by
  unfold insert at h
  by_cases hm : k ∈ keys d
  · rw [if_pos hm] at h
    rcases List.mem_map.mp h with ⟨a, ha, hfa⟩
    by_cases hak : a.1 = k
    · rw [if_pos hak] at hfa
      exact Or.inl hfa.symm
    · rw [if_neg hak] at hfa
      exact Or.inr (hfa ▸ ha)
  · rw [if_neg hm] at h
    rcases List.mem_append.mp h with ha | ha
    · exact Or.inr ha
    · exact Or.inl (List.mem_singleton.mp ha)

theorem get?_some_mem {K V : Type} [DecidableEq K] {d : Dict K V} {k : K}
    {v : V} (h : get? d k = some v) : ∃ e ∈ d, e.1 = k ∧ e.2 = v := by
  induction d with
  | nil => cases h
  | cons a rest ih =>
    rw [get?_cons] at h
    by_cases hak : a.1 = k
    · rw [if_pos hak] at h
      exact ⟨a, List.mem_cons_self a rest, hak, Option.some.inj h⟩
    · rw [if_neg hak] at h
      rcases ih h with ⟨e, he, he1, he2⟩
      exact ⟨e, List.mem_cons_of_mem a he, he1, he2⟩

end Dict

namespace SemanticSearchEngine

theorem get?_mergeFold_not_mem (v : Dict ℤ Combined → SearchResult → Combined) :
    ∀ (l : List SearchResult) (d : Dict ℤ Combined) (cid : ℤ),
      (∀ r ∈ l, r.content_id ≠ cid) →
      Dict.get? (l.foldl (fun d r => Dict.insert d r.content_id (v d r)) d) cid =
        Dict.get? d cid := by
  intro l
  induction l with
  | nil => intro d cid _; rfl
  | cons r rest ih =>
    intro d cid hne
    have h1 : r.content_id ≠ cid := hne r (List.mem_cons_self r rest)
    show Dict.get? (rest.foldl _ (Dict.insert d r.content_id (v d r))) cid = _
    rw [ih _ cid (fun r' hr' => hne r' (List.mem_cons_of_mem r hr')),
      Dict.get?_insert_ne _ _ _ (Ne.symm h1)]

theorem keys_mergeFold (v : Dict ℤ Combined → SearchResult → Combined) :
    ∀ (l : List SearchResult) (d : Dict ℤ Combined),
      (l.map (fun r => r.content_id)).Nodup →
      Dict.keys (l.foldl (fun d r => Dict.insert d r.content_id (v d r)) d) =
        Dict.keys d ++
          (l.map (fun r => r.content_id)).filter
            (fun cid => decide (cid ∉ Dict.keys d)) := by
  intro l
  induction l with
  | nil => intro d _; simp
  | cons r rest ih =>
    intro d hnd
    simp only [List.map_cons, List.nodup_cons] at hnd
    rcases hnd with ⟨hr, hrest⟩
    show Dict.keys (rest.foldl _ (Dict.insert d r.content_id (v d r))) = _
    rw [ih _ hrest, Dict.keys_insert]
    by_cases hk : r.content_id ∈ Dict.keys d
    · rw [if_pos hk]
      simp [List.filter_cons, hk]
    · rw [if_neg hk]
      have hfeq : (rest.map (fun r => r.content_id)).filter
            (fun cid => decide (cid ∉ Dict.keys d ++ [r.content_id])) =
          (rest.map (fun r => r.content_id)).filter
            (fun cid => decide (cid ∉ Dict.keys d)) := by
        refine List.filter_congr ?_
        intro cid hcid
        have hne : cid ≠ r.content_id := fun hc => hr (hc ▸ hcid)
        rw [decide_eq_decide]
        simp [List.mem_append, hne]
      rw [hfeq]
      simp [List.filter_cons, hk, List.append_assoc]

theorem dinv_mergeFold (v : Dict ℤ Combined → SearchResult → Combined)
    (hv : ∀ (d : Dict ℤ Combined) (r : SearchResult),
      (∀ e ∈ d, e.2.result.content_id = e.1) →
      (v d r).result.content_id = r.content_id) :
    ∀ (l : List SearchResult) (d : Dict ℤ Combined),
      (∀ e ∈ d, e.2.result.content_id = e.1) →
      ∀ e ∈ l.foldl (fun d r => Dict.insert d r.content_id (v d r)) d,
        e.2.result.content_id = e.1 := by
  intro l
  induction l with
  | nil => intro d hd; exact hd
  | cons r rest ih =>
    intro d hd
    refine ih _ ?_
    intro e he
    rcases Dict.mem_insert_cases he with heq | he
    · rw [heq]
      exact hv d r hd
    · exact hd e he

theorem mergeStep2_result_id (d : Dict ℤ Combined) (r : SearchResult)
    (hd : ∀ e ∈ d, e.2.result.content_id = e.1) :
    (mergeStep2 d r).result.content_id = r.content_id := by
  unfold mergeStep2
  cases hg : Dict.get? d r.content_id with
  | none => rfl
  | some c =>
    rcases Dict.get?_some_mem hg with ⟨e, he, he1, he2⟩
    show c.result.content_id = r.content_id
    rw [← he2, hd e he, he1]

theorem get?_mergePhase1 :
    ∀ (vr : List SearchResult) (cid : ℤ),
      (vr.map (fun r => r.content_id)).Nodup →
      Dict.get? (mergePhase1 vr) cid =
        match vr.find? (fun r => decide (r.content_id = cid)) with
        | some r => some { result := r, vector_score := r.score, keyword_score := 0 }
        | none => none := by
  have haux : ∀ (l : List SearchResult) (d : Dict ℤ Combined) (cid : ℤ),
      (l.map (fun r => r.content_id)).Nodup →
      Dict.get? (l.foldl (fun d r => Dict.insert d r.content_id
        { result := r, vector_score := r.score, keyword_score := 0 }) d) cid =
        match l.find? (fun r => decide (r.content_id = cid)) with
        | some r => some { result := r, vector_score := r.score, keyword_score := 0 }
        | none => Dict.get? d cid := by
    intro l
    induction l with
    | nil => intro d cid _; rfl
    | cons r rest ih =>
      intro d cid hnd
      simp only [List.map_cons, List.nodup_cons] at hnd
      rcases hnd with ⟨hr, hrest⟩
      rw [List.foldl_cons, List.find?_cons]
      by_cases hrc : r.content_id = cid
      · rw [decide_eq_true hrc]
        have hnotin : ∀ r' ∈ rest, r'.content_id ≠ cid := by
          intro r' hr' hc
          rw [← hrc] at hc
          exact hr (hc ▸ List.mem_map_of_mem (fun r => r.content_id) hr')
        rw [get?_mergeFold_not_mem _ rest _ cid hnotin, hrc, Dict.get?_insert_self]
      · rw [decide_eq_false hrc]
        rw [ih _ cid hrest,
          Dict.get?_insert_ne _ _ _ (fun hc => hrc hc.symm)]
  intro vr cid hnd
  unfold mergePhase1
  rw [haux vr [] cid hnd]
  cases vr.find? (fun r => decide (r.content_id = cid)) <;> rfl

end SemanticSearchEngine

namespace SemanticSearchEngine

theorem get?_mergePhase2 :
    ∀ (kr : List SearchResult) (d : Dict ℤ Combined) (cid : ℤ),
      (kr.map (fun r => r.content_id)).Nodup →
      Dict.get? (mergePhase2 d kr) cid =
        match kr.find? (fun r => decide (r.content_id = cid)) with
        | some r =>
          match Dict.get? d cid with
          | some c => some { c with keyword_score := r.score }
          | none => some { result := r, vector_score := 0, keyword_score := r.score }
        | none => Dict.get? d cid := by
  intro kr
  induction kr with
  | nil => intro d cid _; rfl
  | cons r rest ih =>
    intro d cid hnd
    simp only [List.map_cons, List.nodup_cons] at hnd
    rcases hnd with ⟨hr, hrest⟩
    unfold mergePhase2
    rw [List.foldl_cons, List.find?_cons]
    by_cases hrc : r.content_id = cid
    · rw [decide_eq_true hrc]
      have hnotin : ∀ r' ∈ rest, r'.content_id ≠ cid := by
        intro r' hr' hc
        rw [← hrc] at hc
        exact hr (hc ▸ List.mem_map_of_mem (fun r => r.content_id) hr')
      rw [show (rest.foldl (fun d r => Dict.insert d r.content_id (mergeStep2 d r))
            (Dict.insert d r.content_id (mergeStep2 d r))) =
          mergePhase2 (Dict.insert d r.content_id (mergeStep2 d r)) rest from rfl]
      rw [show mergePhase2 (Dict.insert d r.content_id (mergeStep2 d r)) rest =
          rest.foldl (fun d r => Dict.insert d r.content_id (mergeStep2 d r))
            (Dict.insert d r.content_id (mergeStep2 d r)) from rfl]
      rw [get?_mergeFold_not_mem _ rest _ cid hnotin, hrc, Dict.get?_insert_self]
      unfold mergeStep2
      rw [hrc]
      cases d.get? cid <;> rfl
    · rw [decide_eq_false hrc]
      rw [show (rest.foldl (fun d r => Dict.insert d r.content_id (mergeStep2 d r))
            (Dict.insert d r.content_id (mergeStep2 d r))) =
          mergePhase2 (Dict.insert d r.content_id (mergeStep2 d r)) rest from rfl]
      rw [ih _ cid hrest,
        Dict.get?_insert_ne _ _ _ (fun hc => hrc hc.symm)]

end SemanticSearchEngine

namespace SemanticSearchEngine

theorem find?_id_some {l : List SearchResult} {cid : ℤ} {r : SearchResult}
    (h : l.find? (fun r => decide (r.content_id = cid)) = some r) :
    r ∈ l ∧ r.content_id = cid := by
  induction l with
  | nil => cases h
  | cons a rest ih =>
    rw [List.find?_cons] at h
    by_cases hac : a.content_id = cid
    · rw [decide_eq_true hac] at h
      rcases Option.some.inj h with rfl
      exact ⟨List.mem_cons_self a rest, hac⟩
    · rw [decide_eq_false hac] at h
      rcases ih h with ⟨hm, hc⟩
      exact ⟨List.mem_cons_of_mem a hm, hc⟩

theorem keys_mergePhase1 (vr : List SearchResult)
    (hvr : (vr.map (fun r => r.content_id)).Nodup) :
    Dict.keys (mergePhase1 vr) = vr.map (fun r => r.content_id) := by
  have h := keys_mergeFold
    (fun _ r => ({ result := r, vector_score := r.score, keyword_score := 0 } : Combined))
    vr [] hvr
  have h2 : ((vr.map (fun r => r.content_id)).filter
      (fun cid => decide (cid ∉ Dict.keys ([] : Dict ℤ Combined)))) =
      vr.map (fun r => r.content_id) := by
    refine Eq.trans (List.filter_congr ?_) (List.filter_true _)
    intro a _
    exact decide_eq_true (List.not_mem_nil a)
  rw [h2] at h
  exact h.trans (List.nil_append _)

theorem keys_mergeD (vr kr : List SearchResult)
    (hvr : (vr.map (fun r => r.content_id)).Nodup)
    (hkr : (kr.map (fun r => r.content_id)).Nodup) :
    Dict.keys (mergePhase2 (mergePhase1 vr) kr) =
      vr.map (fun r => r.content_id) ++
        (kr.map (fun r => r.content_id)).filter
          (fun cid => decide (cid ∉ vr.map (fun r => r.content_id))) := by
  have h := keys_mergeFold mergeStep2 kr (mergePhase1 vr) hkr
  rw [keys_mergePhase1 vr hvr] at h
  exact h

theorem nodup_keys_mergeD (vr kr : List SearchResult)
    (hvr : (vr.map (fun r => r.content_id)).Nodup)
    (hkr : (kr.map (fun r => r.content_id)).Nodup) :
    (Dict.keys (mergePhase2 (mergePhase1 vr) kr)).Nodup := by
  rw [keys_mergeD vr kr hvr hkr, List.nodup_append]
  refine ⟨hvr, hkr.filter _, ?_⟩
  intro cid hc1 hc2
  rcases List.mem_filter.mp hc2 with ⟨_, hpred⟩
  exact (of_decide_eq_true hpred) hc1

theorem dinv_mergeD (vr kr : List SearchResult) :
    ∀ e ∈ mergePhase2 (mergePhase1 vr) kr, e.2.result.content_id = e.1 := by
  refine dinv_mergeFold mergeStep2 (fun d r hd => mergeStep2_result_id d r hd) kr
    (mergePhase1 vr) ?_
  exact dinv_mergeFold
    (fun _ r => ({ result := r, vector_score := r.score, keyword_score := 0 } : Combined))
    (fun _ _ _ => rfl) vr [] (fun e he => absurd he (List.not_mem_nil e))

end SemanticSearchEngine

open SemanticSearchEngine in
/-- C2: on candidate lists with duplicate-free ids (as the sub-searches
produce), the hybrid merge emits each content id at most once, scores
every emitted result as 0.6 times its vector-side score plus 0.4 times
its keyword-side score with 0 for a missing side, sorts descending by
the combined score, truncates to top_k, and covers every candidate id
whenever no truncation occurs. -/
theorem C2_hybrid_merge_spec (vr kr : List SearchResult) (k : ℕ)
    (hvr : (vr.map (fun r => r.content_id)).Nodup)
    (hkr : (kr.map (fun r => r.content_id)).Nodup) :
    ((merge_results vr kr k).map (fun r => r.content_id)).Nodup ∧
    (∀ r ∈ merge_results vr kr k,
      r.score = sideScore vr r.content_id * vector_weight +
        sideScore kr r.content_id * keyword_weight ∧
      (r.content_id ∈ vr.map (fun r => r.content_id) ∨
       r.content_id ∈ kr.map (fun r => r.content_id))) ∧
    (merge_results vr kr k).Pairwise (fun a b => b.score ≤ a.score) ∧
    (merge_results vr kr k).length =
      min k (vr.length + ((kr.map (fun r => r.content_id)).filter
        (fun cid => decide (cid ∉ vr.map (fun r => r.content_id)))).length) ∧
    (vr.length + ((kr.map (fun r => r.content_id)).filter
        (fun cid => decide (cid ∉ vr.map (fun r => r.content_id)))).length ≤ k →
      ∀ cid, (cid ∈ vr.map (fun r => r.content_id) ∨
              cid ∈ kr.map (fun r => r.content_id)) →
        cid ∈ (merge_results vr kr k).map (fun r => r.content_id)) := by
  have hndD := nodup_keys_mergeD vr kr hvr hkr
  have hdinv := dinv_mergeD vr kr
  have hkeysD := keys_mergeD vr kr hvr hkr
  have hfinal_ids :
      ((mergePhase2 (mergePhase1 vr) kr).map (fun e =>
        { e.2.result with
          score := e.2.vector_score * vector_weight +
            e.2.keyword_score * keyword_weight })).map (fun r => r.content_id) =
      Dict.keys (mergePhase2 (mergePhase1 vr) kr) := by
    rw [List.map_map]
    refine List.map_congr_left ?_
    intro e he
    exact hdinv e he
  have hlenD : ((mergePhase2 (mergePhase1 vr) kr).map (fun e =>
        { e.2.result with
          score := e.2.vector_score * vector_weight +
            e.2.keyword_score * keyword_weight })).length =
      vr.length + ((kr.map (fun r => r.content_id)).filter
        (fun cid => decide (cid ∉ vr.map (fun r => r.content_id)))).length := by
    have h2 := congrArg List.length hkeysD
    have h3 : (Dict.keys (mergePhase2 (mergePhase1 vr) kr)).length =
        (mergePhase2 (mergePhase1 vr) kr).length := by
      show ((mergePhase2 (mergePhase1 vr) kr).map Prod.fst).length = _
      rw [List.length_map]
    rw [List.length_append, List.length_map, h3] at h2
    rw [List.length_map, h2]
  refine ⟨?_, ?_, ?_, ?_, ?_⟩
  · show ((List.take k (sortDesc _)).map (fun r => r.content_id)).Nodup
    rw [List.map_take]
    refine List.Nodup.sublist (List.take_sublist _ _) ?_
    refine (((sortDesc_perm _).map (fun r => r.content_id)).nodup_iff).mpr ?_
    rw [hfinal_ids]
    exact hndD
  · intro r hr
    have hr1 : r ∈ sortDesc ((mergePhase2 (mergePhase1 vr) kr).map (fun e =>
        { e.2.result with
          score := e.2.vector_score * vector_weight +
            e.2.keyword_score * keyword_weight })) :=
      List.take_subset _ _ hr
    have hr2 := (sortDesc_perm _).mem_iff.mp hr1
    rcases List.mem_map.mp hr2 with ⟨e, heD, rfl⟩
    have hrid : ({ e.2.result with
        score := e.2.vector_score * vector_weight +
          e.2.keyword_score * keyword_weight } : SearchResult).content_id = e.1 :=
      hdinv e heD
    have hge : Dict.get? (mergePhase2 (mergePhase1 vr) kr) e.1 = some e.2 :=
      Dict.get?_eq_some_of_mem hndD heD
    have hchar := (get?_mergePhase2 kr (mergePhase1 vr) e.1 hkr).symm.trans hge
    rw [hrid]
    cases hkrf : kr.find? (fun r => decide (r.content_id = e.1)) with
    | some rk =>
      rw [hkrf] at hchar
      have hchar2 : (match Dict.get? (mergePhase1 vr) e.1 with
          | some c => some { c with keyword_score := rk.score }
          | none => some { result := rk, vector_score := 0, keyword_score := rk.score }) =
          some e.2 := hchar
      rw [get?_mergePhase1 vr e.1 hvr] at hchar2
      cases hvrf : vr.find? (fun r => decide (r.content_id = e.1)) with
      | some rv =>
        rw [hvrf] at hchar2
        have he2 : e.2 = { result := rv, vector_score := rv.score, keyword_score := rk.score } :=
          (Option.some.inj hchar2).symm
        constructor
        · show e.2.vector_score * vector_weight + e.2.keyword_score * keyword_weight =
            sideScore vr e.1 * vector_weight + sideScore kr e.1 * keyword_weight
          unfold sideScore
          rw [hvrf, hkrf, he2]
          rfl
        · rcases find?_id_some hvrf with ⟨hm, hid⟩
          exact Or.inl (List.mem_map.mpr ⟨rv, hm, hid⟩)
      | none =>
        rw [hvrf] at hchar2
        have he2 : e.2 = { result := rk, vector_score := 0, keyword_score := rk.score } :=
          (Option.some.inj hchar2).symm
        constructor
        · show e.2.vector_score * vector_weight + e.2.keyword_score * keyword_weight =
            sideScore vr e.1 * vector_weight + sideScore kr e.1 * keyword_weight
          unfold sideScore
          rw [hvrf, hkrf, he2]
          rfl
        · rcases find?_id_some hkrf with ⟨hm, hid⟩
          exact Or.inr (List.mem_map.mpr ⟨rk, hm, hid⟩)
    | none =>
      rw [hkrf] at hchar
      have hchar2 : Dict.get? (mergePhase1 vr) e.1 = some e.2 := hchar
      rw [get?_mergePhase1 vr e.1 hvr] at hchar2
      cases hvrf : vr.find? (fun r => decide (r.content_id = e.1)) with
      | some rv =>
        rw [hvrf] at hchar2
        have he2 : e.2 = { result := rv, vector_score := rv.score, keyword_score := 0 } :=
          (Option.some.inj hchar2).symm
        constructor
        · show e.2.vector_score * vector_weight + e.2.keyword_score * keyword_weight =
            sideScore vr e.1 * vector_weight + sideScore kr e.1 * keyword_weight
          unfold sideScore
          rw [hvrf, hkrf, he2]
          rfl
        · rcases find?_id_some hvrf with ⟨hm, hid⟩
          exact Or.inl (List.mem_map.mpr ⟨rv, hm, hid⟩)
      | none =>
        rw [hvrf] at hchar2
        cases hchar2
  · exact List.Pairwise.sublist (List.take_sublist _ _) (sortDesc_sorted _)
  · show (List.take k (sortDesc _)).length = _
    rw [List.length_take, sortDesc_length, hlenD]
  · intro hle cid hcid
    have hlen2 : (sortDesc ((mergePhase2 (mergePhase1 vr) kr).map (fun e =>
        { e.2.result with
          score := e.2.vector_score * vector_weight +
            e.2.keyword_score * keyword_weight }))).length ≤ k := by
      rw [sortDesc_length, hlenD]
      exact hle
    show cid ∈ (List.take k (sortDesc _)).map (fun r => r.content_id)
    rw [List.take_of_length_le hlen2]
    have hmem : cid ∈ Dict.keys (mergePhase2 (mergePhase1 vr) kr) := by
      rw [hkeysD]
      rcases hcid with hv | hk2
      · exact List.mem_append.mpr (Or.inl hv)
      · by_cases hvm : cid ∈ vr.map (fun r => r.content_id)
        · exact List.mem_append.mpr (Or.inl hvm)
        · exact List.mem_append.mpr (Or.inr
            (List.mem_filter.mpr ⟨hk2, decide_eq_true hvm⟩))
    rw [← hfinal_ids] at hmem
    exact (((sortDesc_perm _).map (fun r => r.content_id)).mem_iff).mpr hmem

/-- Witness for C2 on one vector candidate (id 5, score 1) and one
keyword candidate (id 3, score 1/2). -/
theorem C2_witness :
    ((SemanticSearchEngine.merge_results vrFix krFix 10).map (fun r => r.content_id)).Nodup ∧
    (∀ r ∈ SemanticSearchEngine.merge_results vrFix krFix 10,
      r.score = sideScore vrFix r.content_id * SemanticSearchEngine.vector_weight +
        sideScore krFix r.content_id * SemanticSearchEngine.keyword_weight ∧
      (r.content_id ∈ vrFix.map (fun r => r.content_id) ∨
       r.content_id ∈ krFix.map (fun r => r.content_id))) ∧
    (SemanticSearchEngine.merge_results vrFix krFix 10).Pairwise (fun a b => b.score ≤ a.score) ∧
    (SemanticSearchEngine.merge_results vrFix krFix 10).length =
      min 10 (vrFix.length + ((krFix.map (fun r => r.content_id)).filter
        (fun cid => decide (cid ∉ vrFix.map (fun r => r.content_id)))).length) ∧
    (vrFix.length + ((krFix.map (fun r => r.content_id)).filter
        (fun cid => decide (cid ∉ vrFix.map (fun r => r.content_id)))).length ≤ 10 →
      ∀ cid, (cid ∈ vrFix.map (fun r => r.content_id) ∨
              cid ∈ krFix.map (fun r => r.content_id)) →
        cid ∈ (SemanticSearchEngine.merge_results vrFix krFix 10).map (fun r => r.content_id)) :=
  C2_hybrid_merge_spec vrFix krFix 10 (by decide) (by decide)


/-! Claim C1. -/

namespace VectorSearch

/-- The filterMap function body of search, named for the lemmas. -/
theorem search_unfold_nonempty (sim : List ℚ → List ℚ → ℚ) (vs : VectorSearch)
    (q : List ℚ) (k : ℕ) (ms : ℚ) (h : ¬ vs.embeddings.isEmpty = true) :
    search sim vs q k ms =
      (sortDesc (vs.embeddings.filterMap (fun e =>
        if ms ≤ sim q e.2 then some (mkResult vs e.1 (sim q e.2)) else none))).take k := by
  unfold search
  rw [if_neg h]

theorem search_unfold_empty (sim : List ℚ → List ℚ → ℚ) (vs : VectorSearch)
    (q : List ℚ) (k : ℕ) (ms : ℚ) (h : vs.embeddings.isEmpty = true) :
    search sim vs q k ms = [] := by
  unfold search
  rw [if_pos h]

theorem searchBody_some_id (sim : List ℚ → List ℚ → ℚ) (vs : VectorSearch)
    (q : List ℚ) (ms : ℚ) (e : ℤ × List ℚ) (x : SearchResult)
    (h : (if ms ≤ sim q e.2 then some (mkResult vs e.1 (sim q e.2)) else none) = some x) :
    x = mkResult vs e.1 (sim q e.2) ∧ ms ≤ sim q e.2 ∧ x.content_id = e.1 := by
  by_cases hc : ms ≤ sim q e.2
  · rw [if_pos hc] at h
    rcases Option.some.inj h with rfl
    exact ⟨rfl, hc, rfl⟩
  · rw [if_neg hc] at h
    cases h

end VectorSearch

theorem pairwise_of_map_fst {α : Type} {P : ℤ → ℤ → Prop} {l : List (ℤ × α)}
    (h : (l.map Prod.fst).Pairwise P) : l.Pairwise (fun e1 e2 => P e1.1 e2.1) := by
  induction l with
  | nil => exact List.Pairwise.nil
  | cons e rest ih =>
    rw [List.map_cons, List.pairwise_cons] at h
    refine List.pairwise_cons.mpr ⟨?_, ih h.2⟩
    intro b hb
    exact h.1 b.1 (List.mem_map_of_mem Prod.fst hb)

open VectorSearch in
/-- C1 amended: with duplicate-free stored keys, search returns exactly
the stored ids whose similarity reaches min_score, each rendered by
mkResult at its similarity, sorted descending by score with ties kept
in the insertion order of the embeddings map (the stable Python sort
over dict iteration order), truncated to the first top_k; the output
ids are unique, the output length is top_k capped by the number of
qualifying ids, and without truncation every qualifying id appears. -/
theorem C1_search_spec (sim : List ℚ → List ℚ → ℚ) (vs : VectorSearch)
    (q : List ℚ) (k : ℕ) (ms : ℚ)
    (hnd : (Dict.keys vs.embeddings).Nodup) :
    (search sim vs q k ms).Pairwise
      (sKey (fun r => firstPos (Dict.keys vs.embeddings) r.content_id)) ∧
    ((search sim vs q k ms).map (fun r => r.content_id)).Nodup ∧
    (∀ r ∈ search sim vs q k ms, ∃ emb,
      Dict.get? vs.embeddings r.content_id = some emb ∧
      ms ≤ sim q emb ∧ r = mkResult vs r.content_id (sim q emb)) ∧
    (search sim vs q k ms).length =
      min k (vs.embeddings.countP (fun e => decide (ms ≤ sim q e.2))) ∧
    (vs.embeddings.countP (fun e => decide (ms ≤ sim q e.2)) ≤ k →
      ∀ e ∈ vs.embeddings, ms ≤ sim q e.2 →
        e.1 ∈ (search sim vs q k ms).map (fun r => r.content_id)) := by
  by_cases hemp : vs.embeddings.isEmpty = true
  · have hnil : vs.embeddings = [] := List.isEmpty_iff.mp hemp
    rw [search_unfold_empty sim vs q k ms hemp, hnil]
    refine ⟨List.Pairwise.nil, List.Pairwise.nil, ?_, ?_, ?_⟩
    · intro r hr; cases hr
    · simp
    · intro _ e he; cases he
  · rw [search_unfold_nonempty sim vs q k ms hemp]
    have hpw0 : vs.embeddings.Pairwise (fun e1 e2 =>
        firstPos (Dict.keys vs.embeddings) e1.1 <
        firstPos (Dict.keys vs.embeddings) e2.1) :=
      pairwise_of_map_fst (pairwise_firstPos hnd)
    have hpwids : vs.embeddings.Pairwise (fun e1 e2 => e1.1 ≠ e2.1) :=
      pairwise_of_map_fst hnd
    have hres_pw : (vs.embeddings.filterMap (fun e =>
        if ms ≤ sim q e.2 then some (mkResult vs e.1 (sim q e.2)) else none)).Pairwise
        (fun a b => firstPos (Dict.keys vs.embeddings) a.content_id <
          firstPos (Dict.keys vs.embeddings) b.content_id) := by
      refine pairwise_filterMap_of ?_ hpw0
      intro a b x y hr hfa hfb
      rcases searchBody_some_id sim vs q ms a x hfa with ⟨_, _, hxa⟩
      rcases searchBody_some_id sim vs q ms b y hfb with ⟨_, _, hyb⟩
      rw [hxa, hyb]
      exact hr
    have hres_ne : (vs.embeddings.filterMap (fun e =>
        if ms ≤ sim q e.2 then some (mkResult vs e.1 (sim q e.2)) else none)).Pairwise
        (fun a b => a.content_id ≠ b.content_id) := by
      refine pairwise_filterMap_of ?_ hpwids
      intro a b x y hr hfa hfb
      rcases searchBody_some_id sim vs q ms a x hfa with ⟨_, _, hxa⟩
      rcases searchBody_some_id sim vs q ms b y hfb with ⟨_, _, hyb⟩
      rw [hxa, hyb]
      exact hr
    have hlen_res : (vs.embeddings.filterMap (fun e =>
        if ms ≤ sim q e.2 then some (mkResult vs e.1 (sim q e.2)) else none)).length =
        vs.embeddings.countP (fun e => decide (ms ≤ sim q e.2)) := by
      refine length_filterMap_eq_countP ?_ vs.embeddings
      intro e
      by_cases hc : ms ≤ sim q e.2
      · rw [if_pos hc, decide_eq_true hc]; rfl
      · rw [if_neg hc, decide_eq_false hc]; rfl
    refine ⟨?_, ?_, ?_, ?_, ?_⟩
    · exact List.Pairwise.sublist (List.take_sublist _ _)
        (sortDesc_pairwise_sKey hres_pw)
    · rw [List.map_take]
      refine List.Nodup.sublist (List.take_sublist _ _) ?_
      refine (((sortDesc_perm _).map (fun r => r.content_id)).nodup_iff).mpr ?_
      exact List.pairwise_map.mpr hres_ne
    · intro r hr
      have hr1 := List.take_subset _ _ hr
      have hr2 := (sortDesc_perm _).mem_iff.mp hr1
      rcases List.mem_filterMap.mp hr2 with ⟨e, he, hge⟩
      rcases searchBody_some_id sim vs q ms e r hge with ⟨hrEq, hsc, hrid⟩
      refine ⟨e.2, ?_, hsc, ?_⟩
      · rw [hrid]
        exact Dict.get?_eq_some_of_mem hnd he
      · rw [hrid]
        exact hrEq
    · rw [List.length_take, sortDesc_length, hlen_res]
    · intro hle e he hsc
      have hlen2 : (sortDesc (vs.embeddings.filterMap (fun e =>
          if ms ≤ sim q e.2 then some (mkResult vs e.1 (sim q e.2)) else none))).length ≤ k := by
        rw [sortDesc_length, hlen_res]
        exact hle
      rw [List.take_of_length_le hlen2]
      have hmem : mkResult vs e.1 (sim q e.2) ∈
          vs.embeddings.filterMap (fun e =>
            if ms ≤ sim q e.2 then some (mkResult vs e.1 (sim q e.2)) else none) := by
        refine List.mem_filterMap.mpr ⟨e, he, ?_⟩
        rw [if_pos hsc]
      refine (((sortDesc_perm _).map (fun r => r.content_id)).mem_iff).mpr ?_
      exact List.mem_map.mpr ⟨mkResult vs e.1 (sim q e.2), hmem, rfl⟩

/-- C1 counterexample: both stored vectors score 1 against the query,
id 5 was inserted before id 3, and the output keeps that insertion
order: ids come out as 5 then 3, so the claimed ascending-id tie-break
(which demands 3 before 5) fails. -/
theorem C1_counterexample :
    (VectorSearch.search dotQ vsEx [1, 0] 10 (1/10)).map (fun r => r.content_id) = [5, 3] ∧
    ¬ (VectorSearch.search dotQ vsEx [1, 0] 10 (1/10)).Pairwise claimOrderC1 := by
  have hval : VectorSearch.search dotQ vsEx [1, 0] 10 (1/10) =
      [VectorSearch.mkResult vsEx 5 1, VectorSearch.mkResult vsEx 3 1] := by
    simp [VectorSearch.search, vsEx, dotQ, sortDesc, List.filterMap_cons]
    norm_num
    simp [insertDesc, VectorSearch.mkResult, Dict.get?]
  constructor
  · rw [hval]
    rfl
  · rw [hval]
    intro hp
    have h1 := (List.pairwise_cons.mp hp).1 (VectorSearch.mkResult vsEx 3 1)
      (List.mem_cons_self _ _)
    rcases h1 with hlt | ⟨_, hid⟩
    · have hsc : (VectorSearch.mkResult vsEx 3 1).score =
          (VectorSearch.mkResult vsEx 5 1).score := rfl
      rw [hsc] at hlt
      exact lt_irrefl _ hlt
    · have h5 : (VectorSearch.mkResult vsEx 5 1).content_id = 5 := rfl
      have h3 : (VectorSearch.mkResult vsEx 3 1).content_id = 3 := rfl
      rw [h5, h3] at hid
      exact absurd hid (by decide)

/-- Witness for C1 amended on the fixture index and the unit query. -/
theorem C1_witness :
    (VectorSearch.search dotQ vsEx [1, 0] 10 (1/10)).Pairwise
      (sKey (fun r => firstPos (Dict.keys vsEx.embeddings) r.content_id)) ∧
    ((VectorSearch.search dotQ vsEx [1, 0] 10 (1/10)).map (fun r => r.content_id)).Nodup ∧
    (∀ r ∈ VectorSearch.search dotQ vsEx [1, 0] 10 (1/10), ∃ emb,
      Dict.get? vsEx.embeddings r.content_id = some emb ∧
      1/10 ≤ dotQ [1, 0] emb ∧
      r = VectorSearch.mkResult vsEx r.content_id (dotQ [1, 0] emb)) ∧
    (VectorSearch.search dotQ vsEx [1, 0] 10 (1/10)).length =
      min 10 (vsEx.embeddings.countP (fun e => decide (1/10 ≤ dotQ [1, 0] e.2))) ∧
    (vsEx.embeddings.countP (fun e => decide (1/10 ≤ dotQ [1, 0] e.2)) ≤ 10 →
      ∀ e ∈ vsEx.embeddings, 1/10 ≤ dotQ [1, 0] e.2 →
        e.1 ∈ (VectorSearch.search dotQ vsEx [1, 0] 10 (1/10)).map (fun r => r.content_id)) :=
  C1_search_spec dotQ vsEx [1, 0] 10 (1/10) (by decide)

end SKR
